import Mathlib

/-!
# ESP32 RGB controller: embedding of `esp_32_rgb_controller.cpp`

The sketch keeps all of its state in globals.  The embedding gathers them in one
record `State`, and every function of the sketch becomes a function on that record.

Conventions of the embedding.

* A C array is a total map from index to cell.  The cells below the declared extent are
  the array; the cells above it stand for the memory that follows the array, which the
  code never bounds-checks.  A property such as "nothing outside the buffer is written"
  is therefore a statement about the cells above the extent.  A write above the extent
  is undefined behaviour in C (it lands in whatever global follows the array), so the
  total map describes the sketch only while every write stays below the extent.  The
  one function whose writes can leave its array before any screen is shown, `loadConfig`,
  also has a bounds-checked form, `loadConfigChecked`, which returns `none` there.
* Machine integers are `Nat` or `Int`, reduced modulo the width where the code can wrap.
* `float` is IEEE-754 binary32 with round-to-nearest-even, modelled over `ℚ` (`F32`).
* The collaborating libraries are not part of the sketch.  The display calls have no
  effect on the globals and are left out.  `random8`, the FFT and the colour conversions
  are kept uninterpreted: `random8` is a stream given as a parameter, the FFT output is a
  parameter, and a colour cell records which library call produced it.
-/

namespace Esp32Rgb

/-! ## Constants of the sketch -/

/-- The `#define SAMPLES 512`. -/
def SAMPLES : Nat := 512

/-- The `#define MINPRESSURE 200`. -/
def MINPRESSURE : Int := 200

/-- The `#define MAXPRESSURE 1000`. -/
def MAXPRESSURE : Int := 1000

/-- The `#define MAX_STRIPS 4`. -/
def MAX_STRIPS : Nat := 4

/-- The `#define MAX_LEDS 150`. -/
def MAX_LEDS : Nat := 150

/-- The value of `sizeof(audioBuffer)` for `uint8_t audioBuffer[1024]`. -/
def AUDIO_BUFFER_SIZE : Nat := 1024

/-- The enumeration `ScreenID`. -/
inductive ScreenID
  | SPLASH
  | MAIN_MENU
  | AUDIO_MODE
  | LED_CONFIG_STRIPS
  | LED_CONFIG_COUNT
  | VISUALIZER
  deriving DecidableEq, Repr

/-! ## Machine arithmetic -/

/-- Unsigned 32-bit subtraction, as in `millis() - lastBeatTime` on `unsigned long`. -/
def subU32 (a b : Nat) : Nat :=
  (a % 2 ^ 32 + 2 ^ 32 - b % 2 ^ 32) % 2 ^ 32

/-- Arduino `map(x, in_min, in_max, out_min, out_max)` of the ESP32 core:
`(x - in_min) * (out_max - out_min) / (in_max - in_min) + out_min` with C division
(truncation toward zero), and `-1` when the input range is empty. -/
def map (x in_min in_max out_min out_max : Int) : Int :=
  if in_max - in_min = 0 then -1
  else ((x - in_min) * (out_max - out_min)).tdiv (in_max - in_min) + out_min

/-- Arduino `constrain(amt, low, high)`, the macro
`((amt)<(low)?(low):((amt)>(high)?(high):(amt)))`. -/
def constrain (amt low high : Int) : Int :=
  if amt < low then low else if amt > high then high else amt

/-- A C `for (int i = 0; i < n; i++) body(i)` whose body leaves the bound alone:
runs `body 0`, then `body 1`, up to `body (n-1)`. -/
def forUpTo {σ : Type} : Nat → (Nat → σ → σ) → σ → σ
  | 0, _, s => s
  | n + 1, body, s => body n (forUpTo n body s)

/-- Store `v` in cell `i` of an array. -/
def setAt {α : Type} (a : Nat → α) (i : Nat) (v : α) : Nat → α :=
  fun k => if k = i then v else a k

/-- Store `v` in cell `[i][j]` of a two-dimensional array. -/
def setAt2 {α : Type} (a : Nat → Nat → α) (i j : Nat) (v : α) : Nat → Nat → α :=
  fun k l => if k = i ∧ l = j then v else a k l

/-- The library `memcpy(dst, src, n)`: the first `n` cells of `dst` become those of `src`. -/
def memcpy (dst src : Nat → Nat) (n : Nat) : Nat → Nat :=
  fun i => if i < n then src i else dst i

/-! ## binary32 -/

/-- A `float` value: not-a-number, an infinity with its sign, or a finite rational.
The two zeros are identified (they compare equal, and the sketch never divides a
non-zero value by zero). -/
inductive F32
  | nan
  | inf (negative : Bool)
  | fin (q : ℚ)

/-- Round a rational to the nearest integer, ties to the even one. -/
def roundHalfEven (x : ℚ) : ℤ :=
  let f := ⌊x⌋
  let d := x - f
  if d < 1 / 2 then f
  else if 1 / 2 < d then f + 1
  else if f % 2 = 0 then f else f + 1

/-- Exponent of the binary32 grid around a positive magnitude `a`:
`⌊log₂ a⌋`, but never below the subnormal exponent `-126`. -/
def f32Exponent (a : ℚ) : ℤ :=
  max (Int.log 2 a) (-126)

/-- Spacing of the binary32 grid around a positive magnitude: 24 significant bits. -/
def f32Ulp (a : ℚ) : ℚ :=
  (2 : ℚ) ^ (f32Exponent a - 23)

/-- Round a non-negative magnitude to the binary32 grid. -/
def roundMag (a : ℚ) : ℚ :=
  (roundHalfEven (a / f32Ulp a) : ℚ) * f32Ulp a

/-- Round-to-nearest-even of an exact result to binary32, overflowing to an infinity
from `2^128` on. -/
def roundF32 (q : ℚ) : F32 :=
  if q = 0 then F32.fin 0
  else
    let r := roundMag |q|
    if (2 : ℚ) ^ (128 : ℕ) ≤ r then F32.inf (decide (q < 0))
    else F32.fin (if q < 0 then -r else r)

/-- Conversion of an integer to `float`, as in `(float)(audioBuffer[i] - 128)`. -/
def f32_ofInt (z : Int) : F32 :=
  roundF32 (z : ℚ)

/-- The `float` addition. -/
def f32_add : F32 → F32 → F32
  | F32.nan, _ => F32.nan
  | _, F32.nan => F32.nan
  | F32.inf s, F32.inf t => if s = t then F32.inf s else F32.nan
  | F32.inf s, F32.fin _ => F32.inf s
  | F32.fin _, F32.inf t => F32.inf t
  | F32.fin a, F32.fin b => roundF32 (a + b)

/-- The `float` multiplication. -/
def f32_mul : F32 → F32 → F32
  | F32.nan, _ => F32.nan
  | _, F32.nan => F32.nan
  | F32.inf s, F32.inf t => F32.inf (xor s t)
  | F32.inf s, F32.fin b => if b = 0 then F32.nan else F32.inf (xor s (decide (b < 0)))
  | F32.fin a, F32.inf t => if a = 0 then F32.nan else F32.inf (xor (decide (a < 0)) t)
  | F32.fin a, F32.fin b => roundF32 (a * b)

/-- The `float` division; `0 / 0` is not-a-number. -/
def f32_div : F32 → F32 → F32
  | F32.nan, _ => F32.nan
  | _, F32.nan => F32.nan
  | F32.inf _, F32.inf _ => F32.nan
  | F32.inf s, F32.fin b => F32.inf (xor s (decide (b < 0)))
  | F32.fin _, F32.inf _ => F32.fin 0
  | F32.fin a, F32.fin b =>
    if b = 0 then (if a = 0 then F32.nan else F32.inf (decide (a < 0)))
    else roundF32 (a / b)

/-- The `float` comparison `a > b`; false whenever an operand is not-a-number. -/
def f32_gt : F32 → F32 → Bool
  | F32.fin a, F32.fin b => decide (b < a)
  | F32.inf false, F32.fin _ => true
  | F32.inf false, F32.inf true => true
  | F32.fin _, F32.inf true => true
  | _, _ => false

/-! ## Colours, touch samples, the preferences store -/

/-- A cell of `CRGB leds[MAX_STRIPS][MAX_LEDS]`, recorded by the FastLED call that
produced it: a plain RGB triple (the zero-initialised cell is `rgb 0 0 0`), the result of
assigning `CHSV(h, s, v)`, or the result of `fadeToBlackBy(amount)` on an earlier cell. -/
inductive Color
  | rgb (r g b : Nat)
  | hsv (h s v : Nat)
  | faded (c : Color) (amount : Nat)
  deriving DecidableEq, Repr

/-- A `TSPoint` returned by `ts.getPoint()`: raw coordinates and pressure. -/
structure TSPoint where
  x : Int
  y : Int
  z : Int
  deriving DecidableEq, Repr

/-- A value held by the `Preferences` store under one key. -/
inductive PrefVal
  | uint (n : Nat)
  | str (s : String)
  deriving DecidableEq, Repr

/-- The `Preferences` namespace `"rgbcfg"`: a key-value store. -/
abbrev Prefs := String → Option PrefVal

/-- The empty store of a first boot. -/
def emptyPrefs : Prefs := fun _ => none

/-- The call `prefs.putUInt(key, v)`; the stored value is a `uint32_t`. -/
def putUInt (key : String) (v : Nat) (p : Prefs) : Prefs :=
  fun k => if k = key then some (PrefVal.uint (v % 2 ^ 32)) else p k

/-- The call `prefs.putString(key, v)`. -/
def putString (key : String) (v : String) (p : Prefs) : Prefs :=
  fun k => if k = key then some (PrefVal.str v) else p k

/-- The call `prefs.getUInt(key, dflt)`: the stored unsigned value, else the default. -/
def getUInt (key : String) (dflt : Nat) (p : Prefs) : Nat :=
  match p key with
  | some (PrefVal.uint n) => n
  | _ => dflt

/-- The call `prefs.getString(key, dflt)`: the stored string, else the default. -/
def getString (key : String) (dflt : String) (p : Prefs) : String :=
  match p key with
  | some (PrefVal.str s) => s
  | _ => dflt

/-- The key `"leds_" + String(i)`. -/
def ledsKey (i : Nat) : String :=
  "leds_" ++ toString i

/-! ## The globals -/

/-- The globals of the sketch, with two ghost counters: `saveCalls` counts the calls of
`saveConfig`, `randCalls` the calls of `random8`. -/
structure State where
  stripCount : Nat
  ledsPerStrip : Nat → Nat
  audioMode : String
  audioBuffer : Nat → Nat
  audioBufferLen : Nat
  newAudioData : Bool
  vReal : Nat → Int
  vImag : Nat → Int
  lastEnergy : F32
  lastBeatTime : Nat
  currentScreen : ScreenID
  splashStartTime : Nat
  currentStripIndex : Nat
  leds : Nat → Nat → Color
  prefs : Prefs
  saveCalls : Nat
  randCalls : Nat

/-- The constant `float beatThreshold = 1.5`. -/
def beatThreshold : F32 := F32.fin (3 / 2)

/-- The constant `unsigned long beatCooldown = 150`. -/
def beatCooldown : Nat := 150

/-- The globals as their initialisers leave them, over a given store. -/
def initState (store : Prefs) : State where
  stripCount := 1
  ledsPerStrip := fun _ => 30
  audioMode := "fft"
  audioBuffer := fun _ => 0
  audioBufferLen := 0
  newAudioData := false
  vReal := fun _ => 0
  vImag := fun _ => 0
  lastEnergy := F32.fin 0
  lastBeatTime := 0
  currentScreen := ScreenID.SPLASH
  splashStartTime := 0
  currentStripIndex := 0
  leds := fun _ _ => Color.rgb 0 0 0
  prefs := store
  saveCalls := 0
  randCalls := 0

/-! ## Persistence -/

/-- The function `saveConfig`: writes the strip count, the LED count of every strip
below the strip count, and the audio mode. -/
def saveConfig (st : State) : State :=
  let p1 := putUInt "stripCount" st.stripCount st.prefs
  let p2 := forUpTo st.stripCount (fun i p => putUInt (ledsKey i) (st.ledsPerStrip i) p) p1
  let p3 := putString "audioMode" st.audioMode p2
  { st with prefs := p3, saveCalls := st.saveCalls + 1 }

/-- The function `loadConfig`: reads the strip count into a `uint8_t`, the LED count of
every strip below it into a `uint16_t` cell, and the audio mode.  The values assigned are
recorded cell by cell; when the stored strip count exceeds `MAX_STRIPS` the loop of the
sketch writes `ledsPerStrip[4]` and up, outside the array, which is undefined behaviour:
this total form then says which values were assigned and nothing about the globals the
writes land in.  It is the sketch's `loadConfig` exactly when `loadConfigChecked` returns
a state. -/
def loadConfig (st : State) : State :=
  let n := getUInt "stripCount" 1 st.prefs % 2 ^ 8
  let l := forUpTo n (fun i a => setAt a i (getUInt (ledsKey i) 30 st.prefs % 2 ^ 16))
    st.ledsPerStrip
  { st with stripCount := n, ledsPerStrip := l,
            audioMode := getString "audioMode" "fft" st.prefs }

/-- The assignment `ledsPerStrip[i] = v` on the array of `MAX_STRIPS` cells, bounds-checked:
`none` stands for a write outside the array, which C leaves undefined. -/
def storeLedCount (a : Nat → Nat) (i v : Nat) : Option (Nat → Nat) :=
  if i < MAX_STRIPS then some (setAt a i v) else none

/-- The loop of `loadConfig` for a strip count `n`, every write bounds-checked: the
result is `none` as soon as one write falls outside `ledsPerStrip`. -/
def loadLedsChecked (p : Prefs) (n : Nat) (a : Nat → Nat) : Option (Nat → Nat) :=
  forUpTo n (fun i (r : Option (Nat → Nat)) =>
    r.bind (fun a => storeLedCount a i (getUInt (ledsKey i) 30 p % 2 ^ 16))) (some a)

/-- The function `loadConfig` with its array writes bounds-checked: the state it leaves,
or `none` when the loop writes outside `ledsPerStrip` (undefined behaviour). -/
def loadConfigChecked (st : State) : Option State :=
  let n := getUInt "stripCount" 1 st.prefs % 2 ^ 8
  (loadLedsChecked st.prefs n st.ledsPerStrip).map (fun l =>
    { st with stripCount := n, ledsPerStrip := l,
              audioMode := getString "audioMode" "fft" st.prefs })

/-! ## Audio ingest -/

/-- The function `read_data_stream(data, len)`; `data` is the memory behind the pointer. -/
def read_data_stream (data : Nat → Nat) (len : Nat) (st : State) : State :=
  let n := if len > AUDIO_BUFFER_SIZE then AUDIO_BUFFER_SIZE else len
  { st with audioBufferLen := n,
            audioBuffer := memcpy st.audioBuffer data n,
            newAudioData := true }

/-! ## Spectral analyzer -/

/-- The bin of LED `j` on a strip of `n` LEDs: `map(j, 0, ledsPerStrip[i], 1, SAMPLES / 2)`. -/
def binOf (n j : Nat) : Int :=
  map (j : Int) 0 (n : Int) 1 ((SAMPLES / 2 : Nat) : Int)

/-- First loop of `processFFT`: the centred samples at even offsets, zero beyond the
stored length, and a zero imaginary part.  The loop writes `vReal` and `vImag` only. -/
def prepareFFT (st : State) : State :=
  let r := forUpTo SAMPLES (fun i (v : (Nat → Int) × (Nat → Int)) =>
    (setAt v.1 i (if i * 2 < st.audioBufferLen then (st.audioBuffer (i * 2) : Int) - 128 else 0),
     setAt v.2 i 0)) (st.vReal, st.vImag)
  { st with vReal := r.1, vImag := r.2 }

/-- The function `processFFT`.  `level` stands for the arduinoFFT calls: `level v bin` is
`(int)(vReal[bin] / 10)` once `Windowing`, `Compute` and `ComplexToMagnitude` have run
over the prepared real input `v`.  The second loop nest writes `leds` only. -/
def processFFT (level : (Nat → Int) → Int → Int) (st : State) : State :=
  if !st.newAudioData then st
  else
    let s1 := prepareFFT st
    let l := forUpTo s1.stripCount (fun i a =>
      forUpTo (s1.ledsPerStrip i) (fun j a =>
        let bin := binOf (s1.ledsPerStrip i) j
        let lv := constrain (level s1.vReal bin) 0 255
        setAt2 a i j (Color.hsv lv.toNat 255 lv.toNat)) a) s1.leds
    { s1 with leds := l, newAudioData := false }

/-! ## Beat detector -/

/-- The energy of the stored chunk as `processBeat` computes it in `float`: the sum of
the squared centred samples, divided by the stored length. -/
def chunkEnergy (buf : Nat → Nat) (len : Nat) : F32 :=
  let sum := forUpTo len (fun i e =>
    let sample := f32_ofInt ((buf i : Int) - 128)
    f32_add e (f32_mul sample sample)) (F32.fin 0)
  f32_div sum (roundF32 (len : ℚ))

/-- The beat branch: every LED of every strip gets `CHSV(random8(), 255, 255)`.  The loop
nest writes `leds` and advances the generator only. -/
def beatFlash (rnd : Nat → Nat) (st : State) : State :=
  let r := forUpTo st.stripCount (fun i (a : (Nat → Nat → Color) × Nat) =>
    forUpTo (st.ledsPerStrip i) (fun j (a : (Nat → Nat → Color) × Nat) =>
      (setAt2 a.1 i j (Color.hsv (rnd a.2 % 256) 255 255), a.2 + 1)) a) (st.leds, st.randCalls)
  { st with leds := r.1, randCalls := r.2 }

/-- The other branch: every LED of every strip is faded by `fadeToBlackBy(20)`.  The loop
nest writes `leds` only. -/
def beatFade (st : State) : State :=
  let l := forUpTo st.stripCount (fun i a =>
    forUpTo (st.ledsPerStrip i) (fun j a =>
      setAt2 a i j (Color.faded (a i j) 20)) a) st.leds
  { st with leds := l }

/-- The condition of the `if` in `processBeat`, with the first clock reading. -/
def beatFires (now : Nat) (st : State) : Bool :=
  f32_gt (chunkEnergy st.audioBuffer st.audioBufferLen) (f32_mul beatThreshold st.lastEnergy)
    && decide (subU32 now st.lastBeatTime > beatCooldown)

/-- The function `processBeat`.  `rnd k` is the value of the `k`-th call of `random8`;
`now1` and `now2` are the two readings of `millis()`. -/
def processBeat (rnd : Nat → Nat) (now1 now2 : Nat) (st : State) : State :=
  if !st.newAudioData then st
  else
    let energy := chunkEnergy st.audioBuffer st.audioBufferLen
    let s1 :=
      if beatFires now1 st then { beatFlash rnd st with lastBeatTime := now2 % 2 ^ 32 }
      else beatFade st
    { s1 with lastEnergy := energy, newAudioData := false }

/-! ## Touch handling -/

/-- The pressure test `p.z > MINPRESSURE && p.z < MAXPRESSURE`. -/
def validTouch (p : TSPoint) : Bool :=
  decide (p.z > MINPRESSURE) && decide (p.z < MAXPRESSURE)

/-- The logical row of a touch: `map(p.x, 120, 920, 0, 320)`. -/
def touchY (p : TSPoint) : Int :=
  map p.x 120 920 0 320

/-- The two statements `ledsPerStrip[k] += 10; if (ledsPerStrip[k] > 150) ledsPerStrip[k] = 10;`
on a `uint16_t` cell holding `c`. -/
def ledStep (c : Nat) : Nat :=
  let c1 := (c + 10) % 2 ^ 16
  if c1 > 150 then 10 else c1

/-- The function `handleTouch`, for the sample `p` returned by `ts.getPoint()`. -/
def handleTouch (p : TSPoint) (st : State) : State :=
  if validTouch p then
    let y := touchY p
    match st.currentScreen with
    | ScreenID.MAIN_MENU =>
      if y ≥ 50 ∧ y < 80 then { st with currentScreen := ScreenID.AUDIO_MODE }
      else if y ≥ 100 ∧ y < 130 then { st with currentScreen := ScreenID.LED_CONFIG_STRIPS }
      else if y ≥ 150 ∧ y < 180 then { st with currentScreen := ScreenID.VISUALIZER }
      else st
    | ScreenID.AUDIO_MODE =>
      let s1 :=
        if y ≥ 100 ∧ y < 130 then { st with audioMode := "fft" }
        else if y ≥ 140 ∧ y < 170 then { st with audioMode := "beat" }
        else st
      { saveConfig s1 with currentScreen := ScreenID.MAIN_MENU }
    | ScreenID.LED_CONFIG_STRIPS =>
      { st with stripCount := (constrain ((st.stripCount : Int) + 1) 1 MAX_STRIPS).toNat % 2 ^ 8,
                currentStripIndex := 0,
                currentScreen := ScreenID.LED_CONFIG_COUNT }
    | ScreenID.LED_CONFIG_COUNT =>
      let s1 := { st with
        ledsPerStrip := setAt st.ledsPerStrip st.currentStripIndex
                          (ledStep (st.ledsPerStrip st.currentStripIndex)),
        currentStripIndex := (st.currentStripIndex + 1) % 2 ^ 8 }
      if s1.currentStripIndex ≥ s1.stripCount then
        { saveConfig s1 with currentScreen := ScreenID.MAIN_MENU }
      else s1
    | _ => st
  else st

/-! ## Boot and the main loop -/

/-- The function `setup`, as far as the globals go: `loadConfig()`, then `drawSplash()`
records the boot time `now`. -/
def setup (store : Prefs) (now : Nat) : State :=
  { loadConfig (initState store) with splashStartTime := now % 2 ^ 32 }

/-- The function `setup` with the array writes of `loadConfig` bounds-checked: the state
after boot, or `none` when `loadConfig` writes outside `ledsPerStrip`. -/
def setupChecked (store : Prefs) (now : Nat) : Option State :=
  (loadConfigChecked (initState store)).map (fun s =>
    { s with splashStartTime := now % 2 ^ 32 })

/-- First statement of `loop`: leave the splash screen after more than 2000 ms. -/
def splashStep (now : Nat) (st : State) : State :=
  if st.currentScreen = ScreenID.SPLASH ∧ subU32 now st.splashStartTime > 2000 then
    { st with currentScreen := ScreenID.MAIN_MENU }
  else st

/-- Last statement of `loop`: on the visualizer screen, run the analyzer of the mode. -/
def render (level : (Nat → Int) → Int → Int) (rnd : Nat → Nat) (now1 now2 : Nat)
    (st : State) : State :=
  if st.currentScreen = ScreenID.VISUALIZER then
    if st.audioMode = "fft" then processFFT level st
    else if st.audioMode = "beat" then processBeat rnd now1 now2 st
    else st
  else st

/-- What one pass of `loop` reads from outside: the clock at the splash test, the touch
sample, and the two clock readings of `processBeat`. -/
structure Tick where
  now : Nat
  touch : TSPoint
  beatNow1 : Nat
  beatNow2 : Nat

/-- The function `loop`. -/
def loop (level : (Nat → Int) → Int → Int) (rnd : Nat → Nat) (t : Tick) (st : State) : State :=
  render level rnd t.beatNow1 t.beatNow2 (handleTouch t.touch (splashStep t.now st))

/-- What can happen to the controller after boot: a pass of `loop`, a touch sample
handled on its own, a render pass on its own, or a chunk delivered by the audio source. -/
inductive Event
  | tick (t : Tick)
  | touch (p : TSPoint)
  | render (now1 now2 : Nat)
  | audio (data : Nat → Nat) (len : Nat)

/-- The effect of one event. -/
def step (level : (Nat → Int) → Int → Int) (rnd : Nat → Nat) (st : State) : Event → State
  | Event.tick t => loop level rnd t st
  | Event.touch p => handleTouch p st
  | Event.render now1 now2 => render level rnd now1 now2 st
  | Event.audio data len => read_data_stream data len st

/-- The effect of a sequence of events, first event first. -/
def run (level : (Nat → Int) → Int → Int) (rnd : Nat → Nat) (st : State)
    (es : List Event) : State :=
  es.foldl (step level rnd) st

/-- The effect of a sequence of touch samples, first sample first. -/
def touches (ps : List TSPoint) (st : State) : State :=
  ps.foldl (fun s p => handleTouch p s) st

/-- A `float` that is `+∞` or a non-negative value `m * 2^k` of the binary32 grid. -/
def OnGrid (x : F32) : Prop :=
  x = F32.inf false
    ∨ ∃ m k : ℤ, 0 ≤ m ∧ m ≤ 2 ^ (24 : ℕ) ∧ -149 ≤ k ∧ x = F32.fin ((m : ℚ) * (2 : ℚ) ^ k)

/-- The sum of the squared centred samples of the first `n` bytes, computed exactly. -/
def squareSum (buf : Nat → Nat) : Nat → ℤ
  | 0 => 0
  | n + 1 => squareSum buf n + ((buf n : ℤ) - 128) ^ 2

/-- The energy in the words of the specification: the mean of the squared centred samples
over the chunk, computed exactly. -/
def meanSquare (buf : Nat → Nat) (len : Nat) : ℚ :=
  (squareSum buf len : ℚ) / (len : ℚ)

/-- A freshly booted controller (first boot, empty store) holding one delivered chunk of
a single byte 129, whose energy is 1. -/
def warmupState : State :=
  read_data_stream (fun _ => 129) 1 (initState emptyPrefs)

/-- A valid tap: pressure 500, raw coordinates that map to row 60 (the audio-mode entry of
the main menu). -/
def tapRow60 : TSPoint := { x := 270, y := 500, z := 500 }

/-- A valid tap whose raw coordinates map to row 150 (the beat option of the audio-mode
screen). -/
def tapRow150 : TSPoint := { x := 495, y := 500, z := 500 }

/-- The state of a first boot once the user has reached the strip-count screen. -/
def stripConfigState : State :=
  { initState emptyPrefs with currentScreen := ScreenID.LED_CONFIG_STRIPS }

/-- The state of a first boot once the splash screen has given way to the main menu. -/
def mainMenuState : State :=
  { initState emptyPrefs with currentScreen := ScreenID.MAIN_MENU }

/-- The state of a first boot on the per-strip screen, strip 0 holding 150 LEDs. -/
def countConfigState : State :=
  { initState emptyPrefs with
      currentScreen := ScreenID.LED_CONFIG_COUNT,
      ledsPerStrip := fun _ => 150 }

/-- The number that a list of decimal digit characters writes. -/
def digitsValue (l : List Char) : Nat :=
  l.foldl (fun a c => 10 * a + (c.toNat - 48)) 0

/-- A configuration chosen by the user: two strips of 30 LEDs, beat mode. -/
def twoStripBeatState : State :=
  { initState emptyPrefs with
      currentScreen := ScreenID.MAIN_MENU, stripCount := 2, audioMode := "beat" }

/-- The topology bounds of the specification: at most `MAX_STRIPS` strips, and every cell
of `ledsPerStrip` within `[10, MAX_LEDS]`. -/
def TopologyOk (st : State) : Prop :=
  st.stripCount ≤ MAX_STRIPS ∧ ∀ i, i < MAX_STRIPS → 10 ≤ st.ledsPerStrip i ∧ st.ledsPerStrip i ≤ MAX_LEDS

/-- A store whose contents respect the topology bounds. -/
def StoreOk (p : Prefs) : Prop :=
  getUInt "stripCount" 1 p ≤ MAX_STRIPS
    ∧ ∀ i, i < MAX_STRIPS → 10 ≤ getUInt (ledsKey i) 30 p ∧ getUInt (ledsKey i) 30 p ≤ MAX_LEDS

/-- A store that holds a strip count of 7. -/
def sevenStripStore : Prefs :=
  putUInt "stripCount" 7 emptyPrefs

/-- A store that holds 500 LEDs for strip 0. -/
def longStripStore : Prefs :=
  putUInt (ledsKey 0) 500 emptyPrefs

/-- A valid tap whose raw coordinates map to row 160 (the visualizer entry of the main
menu). -/
def tapRow160 : TSPoint := { x := 520, y := 500, z := 500 }

/-- A pass of `loop` three seconds after boot with no finger on the panel. -/
def idleTick : Tick :=
  { now := 3000, touch := { x := 0, y := 0, z := 0 }, beatNow1 := 3000, beatNow2 := 3000 }

/-- From boot to the first spectral render pass: the splash screen times out, the user
starts the visualizer, a four-byte chunk arrives, a render pass runs. -/
def toFirstRender : List Event :=
  [Event.tick idleTick, Event.touch tapRow160, Event.audio (fun _ => 129) 4,
   Event.render 4000 4000]

/-- The part of the globals that the configuration screens own: the screen, the flow
index, the topology, the audio mode, the store and the count of `saveConfig` calls. -/
structure UiConfig where
  currentScreen : ScreenID
  currentStripIndex : Nat
  stripCount : Nat
  ledsPerStrip : Nat → Nat
  audioMode : String
  prefs : Prefs
  saveCalls : Nat

/-- The configuration part of a state. -/
def uiConfig (st : State) : UiConfig where
  currentScreen := st.currentScreen
  currentStripIndex := st.currentStripIndex
  stripCount := st.stripCount
  ledsPerStrip := st.ledsPerStrip
  audioMode := st.audioMode
  prefs := st.prefs
  saveCalls := st.saveCalls

/-- The persistence checkpoints in the words of the specification: the sample is a valid
touch and either the screen is the audio-mode screen, or it is the per-strip screen and
the flow index, once advanced (an 8-bit increment), has reached the strip count. -/
def checkpointDue (p : TSPoint) (st : State) : Bool :=
  validTouch p
    && (decide (st.currentScreen = ScreenID.AUDIO_MODE)
        || (decide (st.currentScreen = ScreenID.LED_CONFIG_COUNT)
            && decide ((st.currentStripIndex + 1) % 2 ^ 8 ≥ st.stripCount)))

/-- The sample that `ts.getPoint()` returns with no finger on the panel: pressure 0. -/
def noTouch : TSPoint := { x := 0, y := 0, z := 0 }

/-- A valid tap whose raw coordinates map to row 110 (the strip entry of the main menu,
the FFT option of the audio-mode screen). -/
def tapRow110 : TSPoint := { x := 395, y := 500, z := 500 }

/-- The state of a first boot once the user has opened the audio-mode screen. -/
def audioModeState : State :=
  { initState emptyPrefs with currentScreen := ScreenID.AUDIO_MODE }

/-- The state of a first boot on the visualizer, in the default FFT mode, holding a
delivered chunk of the four bytes 129. -/
def visualizerState : State :=
  read_data_stream (fun _ => 129) 4
    { initState emptyPrefs with currentScreen := ScreenID.VISUALIZER }

/-- The safety condition of the per-strip screen: on that screen the strip count lies in
`[1, MAX_STRIPS]` and the flow index is below the strip count. -/
def FlowIndexOk (st : State) : Prop :=
  st.currentScreen = ScreenID.LED_CONFIG_COUNT →
    1 ≤ st.stripCount ∧ st.stripCount ≤ MAX_STRIPS ∧ st.currentStripIndex < st.stripCount

/-- From boot to the per-strip screen: the splash screen times out, the user opens the
strip-count screen and taps once. -/
def toCountScreen : List Event :=
  [Event.tick idleTick, Event.touch tapRow110, Event.touch tapRow60]

/-- Events on the visualizer: a tap on each menu row, a pass of `loop`, a chunk, a
render pass. -/
def visualizerEvents : List Event :=
  [Event.touch tapRow60, Event.touch tapRow110, Event.touch tapRow160,
   Event.tick idleTick, Event.audio (fun _ => 200) 8, Event.render 4000 4001]

/-- The state of a first boot on the strip-count screen with four strips configured. -/
def fourStripState : State :=
  { initState emptyPrefs with currentScreen := ScreenID.LED_CONFIG_STRIPS, stripCount := 4 }

/-! # Theorems -/

/-! ## Audio ingest: theorems -/

/-- C1: `read_data_stream` stores `min(len, 1024)` as the chunk length, copies exactly that
many leading bytes of `data` into `audioBuffer`, leaves every other cell as it was (in
particular every cell from index 1024 on, the memory after the buffer), and raises
`newAudioData`; the stored length is at most the capacity 1024. -/
theorem read_data_stream_spec (data : Nat → Nat) (len : Nat) (st : State) :
    (read_data_stream data len st).audioBufferLen = min len 1024
    ∧ (∀ i, i < min len 1024 → (read_data_stream data len st).audioBuffer i = data i)
    ∧ (∀ i, min len 1024 ≤ i → (read_data_stream data len st).audioBuffer i = st.audioBuffer i)
    ∧ (∀ i, 1024 ≤ i → (read_data_stream data len st).audioBuffer i = st.audioBuffer i)
    ∧ (read_data_stream data len st).newAudioData = true
    ∧ (read_data_stream data len st).audioBufferLen ≤ 1024 := by
  have hn : (if len > AUDIO_BUFFER_SIZE then AUDIO_BUFFER_SIZE else len) = min len 1024 := by
    unfold AUDIO_BUFFER_SIZE
    split <;> omega
  simp only [read_data_stream, hn, memcpy]
  refine ⟨trivial, ?_, ?_, ?_, trivial, by omega⟩
  · intro i hi
    simp [hi]
  · intro i hi
    have : ¬ i < min len 1024 := by omega
    simp [this]
  · intro i hi
    have : ¬ i < min len 1024 := by omega
    simp [this]

/-! ## Spectral analyzer: the bin of an LED -/

/-- The bin of LED `j` on a strip of `n ≥ 1` LEDs is `j * 255 / n + 1`. -/
theorem binOf_eq (n j : Nat) (hn : 1 ≤ n) : binOf n j = ((j * 255 / n + 1 : Nat) : Int) := by
  have h0 : ¬ ((n : Int) - 0 = 0) := by omega
  simp only [binOf, map, SAMPLES, if_neg h0]
  have h1 : ((j : Int) - 0) * (((512 / 2 : Nat) : Int) - 1) = ((j * 255 : Nat) : Int) := by
    push_cast
    norm_num
  rw [h1, sub_zero, Int.tdiv_eq_ediv (Int.natCast_nonneg _) (Int.natCast_nonneg _)]
  push_cast
  rfl

/-- C2: for a strip of `n` LEDs, `1 ≤ n ≤ 150`, the bin of every LED `j < n` is
`j * 255 / n + 1`, lies in `[1, 256)` (bin 0 is never used), and the bin does not decrease
along the strip. -/
theorem binOf_range_mono (n j : Nat) (hn : 1 ≤ n) (hn150 : n ≤ 150) (hj : j < n) :
    binOf n j = (j : Int) * 255 / (n : Int) + 1
    ∧ 1 ≤ binOf n j ∧ binOf n j < ((SAMPLES / 2 : Nat) : Int)
    ∧ ∀ j1 j2, j1 ≤ j2 → j2 < n → binOf n j1 ≤ binOf n j2 := by
  have hlt : j * 255 / n < 255 := by
    rw [Nat.div_lt_iff_lt_mul (by omega)]
    nlinarith
  refine ⟨?_, ?_, ?_, ?_⟩
  · rw [binOf_eq n j hn]
    push_cast
    rfl
  · rw [binOf_eq n j hn]
    exact_mod_cast Nat.le_add_left 1 _
  · rw [binOf_eq n j hn]
    have : j * 255 / n + 1 < SAMPLES / 2 := by
      simp only [SAMPLES]
      omega
    exact_mod_cast this
  · intro j1 j2 h12 _
    rw [binOf_eq n j1 hn, binOf_eq n j2 hn]
    have : j1 * 255 / n ≤ j2 * 255 / n := Nat.div_le_div_right (Nat.mul_le_mul_right 255 h12)
    exact_mod_cast Nat.add_le_add_right this 1

/-- C2 at a strip of 30 LEDs and its last LED: bin 247. -/
theorem binOf_range_mono_witness :
    binOf 30 29 = (29 : Int) * 255 / (30 : Int) + 1
    ∧ 1 ≤ binOf 30 29 ∧ binOf 30 29 < ((SAMPLES / 2 : Nat) : Int)
    ∧ ∀ j1 j2, j1 ≤ j2 → j2 < 30 → binOf 30 j1 ≤ binOf 30 j2 :=
  binOf_range_mono 30 29 (by decide) (by decide) (by decide)

/-! ## binary32: rounding facts -/

/-- Rounding never goes below an integer that the argument is not below. -/
theorem le_roundHalfEven (k : ℤ) (x : ℚ) (h : (k : ℚ) ≤ x) : k ≤ roundHalfEven x := by
  have hf : k ≤ ⌊x⌋ := Int.le_floor.mpr h
  unfold roundHalfEven
  simp only
  split_ifs <;> omega

/-- Rounding never goes above an integer that the argument is not above. -/
theorem roundHalfEven_le (k : ℤ) (x : ℚ) (h : x ≤ (k : ℚ)) : roundHalfEven x ≤ k := by
  have hfl : (⌊x⌋ : ℚ) ≤ x := Int.floor_le x
  have hf : ⌊x⌋ ≤ k := by exact_mod_cast hfl.trans h
  have hstep : 0 < x - (⌊x⌋ : ℚ) → ⌊x⌋ + 1 ≤ k := by
    intro hd
    have : (⌊x⌋ : ℚ) < (k : ℚ) := by linarith
    have : ⌊x⌋ < k := by exact_mod_cast this
    omega
  unfold roundHalfEven
  simp only
  split_ifs with h1 h2 h3
  · exact hf
  · exact hstep (by linarith)
  · exact hf
  · exact hstep (by linarith)

/-- A power of two times a power of two. -/
theorem two_pow_mul_zpow (n : ℕ) (e : ℤ) :
    (((2 : ℤ) ^ n : ℤ) : ℚ) * (2 : ℚ) ^ e = (2 : ℚ) ^ (e + (n : ℤ)) := by
  rw [zpow_add₀ (by norm_num), zpow_natCast]
  push_cast
  ring

/-- The grid spacing is positive. -/
theorem f32Ulp_pos (a : ℚ) : 0 < f32Ulp a :=
  zpow_pos (by norm_num) _

/-- The grid exponent is at least the subnormal one. -/
theorem f32Exponent_ge (a : ℚ) : -126 ≤ f32Exponent a :=
  le_max_right _ _

/-- A positive magnitude lies below the next power of two above its grid exponent. -/
theorem lt_two_zpow_f32Exponent (a : ℚ) : a < (2 : ℚ) ^ (f32Exponent a + 1) := by
  have h1 : a < ((2 : ℕ) : ℚ) ^ (Int.log 2 a + 1) := Int.lt_zpow_succ_log_self (by norm_num) a
  have h2 : ((2 : ℕ) : ℚ) ^ (Int.log 2 a + 1) ≤ (2 : ℚ) ^ (f32Exponent a + 1) := by
    push_cast
    apply zpow_le_zpow_right₀ (by norm_num)
    have : Int.log 2 a ≤ f32Exponent a := le_max_left _ _
    omega
  exact lt_of_lt_of_le h1 h2

/-- The significand of a rounded magnitude is between 0 and `2^24`. -/
theorem significand_bounds (a : ℚ) (ha : 0 ≤ a) :
    0 ≤ roundHalfEven (a / f32Ulp a) ∧ roundHalfEven (a / f32Ulp a) ≤ 2 ^ (24 : ℕ) := by
  constructor
  · apply le_roundHalfEven
    have := f32Ulp_pos a
    simpa using div_nonneg ha this.le
  · apply roundHalfEven_le
    rw [div_le_iff₀ (f32Ulp_pos a)]
    have h := lt_two_zpow_f32Exponent a
    have e : (((2 : ℤ) ^ (24 : ℕ) : ℤ) : ℚ) * f32Ulp a = (2 : ℚ) ^ (f32Exponent a + 1) := by
      unfold f32Ulp
      rw [two_pow_mul_zpow]
      congr 1
      push_cast
      ring
    rw [e]
    exact h.le

/-- A value `m * 2^k` of the binary32 grid (`m ≤ 2^24`, `k ≥ -149`) that is not above a
positive magnitude is not above the rounded magnitude either. -/
theorem grid_le_roundMag (m k : ℤ) (hm : m ≤ 2 ^ (24 : ℕ)) (hk : -149 ≤ k)
    (a : ℚ) (ha : 0 < a) (hy : (m : ℚ) * (2 : ℚ) ^ k ≤ a) :
    (m : ℚ) * (2 : ℚ) ^ k ≤ roundMag a := by
  have hu := f32Ulp_pos a
  have h2 : (2 : ℚ) ≠ 0 := by norm_num
  unfold roundMag
  by_cases hc : f32Exponent a - 23 ≤ k
  · -- the value is a multiple of the spacing
    obtain ⟨n, hn⟩ : ∃ n : ℕ, k = (f32Exponent a - 23) + n :=
      ⟨(k - (f32Exponent a - 23)).toNat, by omega⟩
    have hmul : (m : ℚ) * (2 : ℚ) ^ k = ((m * 2 ^ n : ℤ) : ℚ) * f32Ulp a := by
      unfold f32Ulp
      rw [hn, zpow_add₀ h2, zpow_natCast]
      push_cast
      ring
    have hle : ((m * 2 ^ n : ℤ) : ℚ) ≤ a / f32Ulp a := by
      rw [le_div_iff₀ hu, ← hmul]
      exact hy
    have := le_roundHalfEven _ _ hle
    rw [hmul]
    have hc2 : ((m * 2 ^ n : ℤ) : ℚ) ≤ (roundHalfEven (a / f32Ulp a) : ℚ) := by exact_mod_cast this
    exact mul_le_mul_of_nonneg_right hc2 hu.le
  · -- the value lies below the binade of `a`
    have hE : f32Exponent a = Int.log 2 a := by
      unfold f32Exponent at hc ⊢
      rcases le_total (Int.log 2 a) (-126) with h | h
      · rw [max_eq_right h] at hc
        omega
      · exact max_eq_left h
    have hpow : (2 : ℚ) ^ (f32Exponent a) ≤ a := by
      rw [hE]
      have := Int.zpow_log_le_self (R := ℚ) (b := 2) (by norm_num) ha
      simpa using this
    have hsig : ((2 ^ (23 : ℕ) : ℤ) : ℚ) ≤ a / f32Ulp a := by
      rw [le_div_iff₀ hu]
      have e : (((2 : ℤ) ^ (23 : ℕ) : ℤ) : ℚ) * f32Ulp a = (2 : ℚ) ^ (f32Exponent a) := by
        unfold f32Ulp
        rw [two_pow_mul_zpow]
        congr 1
        push_cast
        ring
      rw [e]
      exact hpow
    have h23 := le_roundHalfEven _ _ hsig
    have h23q : ((2 ^ (23 : ℕ) : ℤ) : ℚ) ≤ (roundHalfEven (a / f32Ulp a) : ℚ) := by
      exact_mod_cast h23
    have hlow : (2 : ℚ) ^ (f32Exponent a) ≤ (roundHalfEven (a / f32Ulp a) : ℚ) * f32Ulp a := by
      have e : (((2 : ℤ) ^ (23 : ℕ) : ℤ) : ℚ) * f32Ulp a = (2 : ℚ) ^ (f32Exponent a) := by
        unfold f32Ulp
        rw [two_pow_mul_zpow]
        congr 1
        push_cast
        ring
      rw [← e]
      exact mul_le_mul_of_nonneg_right h23q hu.le
    have hmq : (m : ℚ) ≤ (2 : ℚ) ^ (24 : ℤ) := by
      have h1 : (m : ℚ) ≤ ((2 ^ (24 : ℕ) : ℤ) : ℚ) := by exact_mod_cast hm
      have h3 : ((2 ^ (24 : ℕ) : ℤ) : ℚ) = (2 : ℚ) ^ (24 : ℤ) := by norm_num
      rw [h3] at h1
      exact h1
    have hk0 : (0 : ℚ) < (2 : ℚ) ^ k := zpow_pos (by norm_num) _
    have hup : (m : ℚ) * (2 : ℚ) ^ k ≤ (2 : ℚ) ^ (f32Exponent a) := by
      calc (m : ℚ) * (2 : ℚ) ^ k ≤ (2 : ℚ) ^ (24 : ℤ) * (2 : ℚ) ^ k :=
            mul_le_mul_of_nonneg_right hmq hk0.le
        _ = (2 : ℚ) ^ (24 + k) := (zpow_add₀ h2 _ _).symm
        _ ≤ (2 : ℚ) ^ (f32Exponent a) := zpow_le_zpow_right₀ (by norm_num) (by omega)
    exact hup.trans hlow

/-! ## binary32: the values the beat detector meets -/

/-- Rounding a non-negative exact result gives `+∞` or a non-negative grid value. -/
theorem roundF32_onGrid (q : ℚ) (hq : 0 ≤ q) : OnGrid (roundF32 q) := by
  unfold roundF32
  by_cases h0 : q = 0
  · rw [if_pos h0]
    exact Or.inr ⟨0, 0, le_refl _, by norm_num, by norm_num, by simp⟩
  · rw [if_neg h0]
    have hneg : ¬ q < 0 := not_lt.mpr hq
    simp only [hneg, decide_False, if_false]
    split
    · exact Or.inl rfl
    · have hb := significand_bounds |q| (abs_nonneg q)
      exact Or.inr ⟨roundHalfEven (|q| / f32Ulp |q|), f32Exponent |q| - 23, hb.1, hb.2,
        by have := f32Exponent_ge |q|; omega, rfl⟩

/-- A grid value is `+∞` or finite and non-negative. -/
theorem OnGrid.cases {x : F32} (h : OnGrid x) :
    x = F32.inf false ∨ ∃ v : ℚ, 0 ≤ v ∧ x = F32.fin v := by
  rcases h with h | ⟨m, k, hm0, _, _, hx⟩
  · exact Or.inl h
  · refine Or.inr ⟨_, ?_, hx⟩
    have : (0 : ℚ) ≤ (m : ℚ) := by exact_mod_cast hm0
    exact mul_nonneg this (zpow_pos (by norm_num) _).le

/-- The sum of two grid values is a grid value. -/
theorem f32_add_onGrid {a b : F32} (ha : OnGrid a) (hb : OnGrid b) : OnGrid (f32_add a b) := by
  rcases ha.cases with rfl | ⟨v, hv, rfl⟩ <;> rcases hb.cases with rfl | ⟨w, hw, rfl⟩
  · exact Or.inl (by simp [f32_add])
  · exact Or.inl (by simp [f32_add])
  · exact Or.inl (by simp [f32_add])
  · simpa [f32_add] using roundF32_onGrid (v + w) (add_nonneg hv hw)

/-- The square of a converted integer is a grid value. -/
theorem f32_mul_self_onGrid (z : ℤ) : OnGrid (f32_mul (f32_ofInt z) (f32_ofInt z)) := by
  have hn : f32_ofInt z ≠ F32.nan := by
    unfold f32_ofInt roundF32
    split
    · simp
    · simp only
      split <;> simp
  cases hx : f32_ofInt z with
  | nan => exact absurd hx hn
  | inf s => exact Or.inl (by simp [f32_mul])
  | fin v => simpa [f32_mul] using roundF32_onGrid (v * v) (mul_self_nonneg v)

/-- A grid value divided by a converted length is not-a-number or a grid value. -/
theorem f32_div_onGrid {a : F32} (ha : OnGrid a) (n : ℕ) :
    f32_div a (roundF32 (n : ℚ)) = F32.nan ∨ OnGrid (f32_div a (roundF32 (n : ℚ))) := by
  have hb := (roundF32_onGrid (n : ℚ) (Nat.cast_nonneg n)).cases
  rcases ha.cases with rfl | ⟨v, hv, rfl⟩ <;> rcases hb with hb | ⟨w, hw, hb⟩ <;> rw [hb]
  · exact Or.inl (by simp [f32_div])
  · have : ¬ w < 0 := not_lt.mpr hw
    exact Or.inr (Or.inl (by simp [f32_div, this]))
  · exact Or.inr (Or.inr ⟨0, 0, le_refl _, by norm_num, by norm_num, by simp [f32_div]⟩)
  · have hvn : ¬ v < 0 := not_lt.mpr hv
    by_cases hw0 : w = 0
    · by_cases hv0 : v = 0
      · exact Or.inl (by simp [f32_div, hw0, hv0])
      · exact Or.inr (Or.inl (by simp [f32_div, hw0, hv0, hvn]))
    · refine Or.inr ?_
      simpa [f32_div, hw0] using roundF32_onGrid (v / w) (div_nonneg hv hw)

/-- The energy of a chunk is not-a-number (only for an empty chunk) or a grid value. -/
theorem chunkEnergy_onGrid (buf : Nat → Nat) (len : Nat) :
    chunkEnergy buf len = F32.nan ∨ OnGrid (chunkEnergy buf len) := by
  unfold chunkEnergy
  apply f32_div_onGrid
  induction len with
  | zero => exact Or.inr ⟨0, 0, le_refl _, by norm_num, by norm_num, by simp [forUpTo]⟩
  | succ n ih => exact f32_add_onGrid ih (f32_mul_self_onGrid _)

/-- No energy exceeds `beatThreshold` times itself: a chunk whose energy equals the
previous energy never passes the threshold test. -/
theorem not_gt_threshold_self {e : F32} (h : e = F32.nan ∨ OnGrid e) :
    f32_gt e (f32_mul beatThreshold e) = false := by
  rcases h with rfl | h | ⟨m, k, hm0, hm, hk, rfl⟩
  · simp [f32_gt]
  · subst h
    have h32 : ¬ ((3 / 2 : ℚ) < 0) := by norm_num
    have h320 : ¬ ((3 / 2 : ℚ) = 0) := by norm_num
    simp only [beatThreshold, f32_mul, if_neg h320, h32, decide_False, Bool.xor_false, f32_gt]
  · have hk0 : (0 : ℚ) < (2 : ℚ) ^ k := zpow_pos (by norm_num) _
    have hmq : (0 : ℚ) ≤ (m : ℚ) := by exact_mod_cast hm0
    have hy : 0 ≤ (m : ℚ) * (2 : ℚ) ^ k := mul_nonneg hmq hk0.le
    simp only [beatThreshold, f32_mul, roundF32]
    by_cases h0 : (3 / 2 : ℚ) * ((m : ℚ) * (2 : ℚ) ^ k) = 0
    · rw [if_pos h0]
      have : (m : ℚ) * (2 : ℚ) ^ k = 0 := by
        rcases mul_eq_zero.mp h0 with h | h
        · norm_num at h
        · exact h
      simp [f32_gt, this]
    · rw [if_neg h0]
      have hpos : 0 < (3 / 2 : ℚ) * ((m : ℚ) * (2 : ℚ) ^ k) :=
        lt_of_le_of_ne (mul_nonneg (by norm_num) hy) (Ne.symm h0)
      have hneg : ¬ (3 / 2 : ℚ) * ((m : ℚ) * (2 : ℚ) ^ k) < 0 := not_lt.mpr hpos.le
      simp only [hneg, decide_False, if_false, abs_of_pos hpos]
      split
      · simp [f32_gt]
      · have hle : (m : ℚ) * (2 : ℚ) ^ k ≤ (3 / 2 : ℚ) * ((m : ℚ) * (2 : ℚ) ^ k) := by linarith
        have := grid_le_roundMag m k hm hk _ hpos hle
        simp only [f32_gt, decide_eq_false_iff_not, not_lt]
        exact this

/-! ## binary32: small integers are exact -/

/-- Rounding an integer leaves it alone. -/
theorem roundHalfEven_intCast (k : ℤ) : roundHalfEven (k : ℚ) = k :=
  le_antisymm (roundHalfEven_le k _ (le_refl _)) (le_roundHalfEven k _ (le_refl _))

/-- A grid value `m * 2^k` (`m ≤ 2^24`, `k ≥ -149`) that is not below a positive magnitude is
not below the rounded magnitude either. -/
theorem roundMag_le_grid (m k : ℤ) (hm : m ≤ 2 ^ (24 : ℕ)) (hk : -149 ≤ k)
    (a : ℚ) (ha : 0 < a) (hy : a ≤ (m : ℚ) * (2 : ℚ) ^ k) :
    roundMag a ≤ (m : ℚ) * (2 : ℚ) ^ k := by
  have hu := f32Ulp_pos a
  have h2 : (2 : ℚ) ≠ 0 := by norm_num
  by_cases hc : f32Exponent a - 23 ≤ k
  · obtain ⟨n, hn⟩ : ∃ n : ℕ, k = (f32Exponent a - 23) + n :=
      ⟨(k - (f32Exponent a - 23)).toNat, by omega⟩
    have hmul : (m : ℚ) * (2 : ℚ) ^ k = ((m * 2 ^ n : ℤ) : ℚ) * f32Ulp a := by
      unfold f32Ulp
      rw [hn, zpow_add₀ h2, zpow_natCast]
      push_cast
      ring
    have hle : a / f32Ulp a ≤ ((m * 2 ^ n : ℤ) : ℚ) := by
      rw [div_le_iff₀ hu, ← hmul]
      exact hy
    have := roundHalfEven_le _ _ hle
    have hc2 : (roundHalfEven (a / f32Ulp a) : ℚ) ≤ ((m * 2 ^ n : ℤ) : ℚ) := by exact_mod_cast this
    unfold roundMag
    rw [hmul]
    exact mul_le_mul_of_nonneg_right hc2 hu.le
  · have hE : f32Exponent a = Int.log 2 a := by
      unfold f32Exponent at hc ⊢
      rcases le_total (Int.log 2 a) (-126) with h | h
      · rw [max_eq_right h] at hc
        omega
      · exact max_eq_left h
    have hpow : (2 : ℚ) ^ (f32Exponent a) ≤ a := by
      rw [hE]
      have := Int.zpow_log_le_self (R := ℚ) (b := 2) (by norm_num) ha
      simpa using this
    have hmq : (m : ℚ) ≤ (2 : ℚ) ^ (24 : ℤ) := by
      have h1 : (m : ℚ) ≤ ((2 ^ (24 : ℕ) : ℤ) : ℚ) := by exact_mod_cast hm
      have h3 : ((2 ^ (24 : ℕ) : ℤ) : ℚ) = (2 : ℚ) ^ (24 : ℤ) := by norm_num
      rw [h3] at h1
      exact h1
    have hk0 : (0 : ℚ) < (2 : ℚ) ^ k := zpow_pos (by norm_num) _
    have hup : (m : ℚ) * (2 : ℚ) ^ k ≤ (2 : ℚ) ^ (f32Exponent a) := by
      calc (m : ℚ) * (2 : ℚ) ^ k ≤ (2 : ℚ) ^ (24 : ℤ) * (2 : ℚ) ^ k :=
            mul_le_mul_of_nonneg_right hmq hk0.le
        _ = (2 : ℚ) ^ (24 + k) := (zpow_add₀ h2 _ _).symm
        _ ≤ (2 : ℚ) ^ (f32Exponent a) := zpow_le_zpow_right₀ (by norm_num) (by omega)
    -- so `a` is the power of two at the bottom of its binade
    have haE : a = (2 : ℚ) ^ (f32Exponent a) := le_antisymm (hy.trans hup) hpow
    have e : (((2 : ℤ) ^ (23 : ℕ) : ℤ) : ℚ) * f32Ulp a = (2 : ℚ) ^ (f32Exponent a) := by
      unfold f32Ulp
      rw [two_pow_mul_zpow]
      congr 1
      push_cast
      ring
    have hdiv : a / f32Ulp a = (((2 : ℤ) ^ (23 : ℕ) : ℤ) : ℚ) := by
      rw [div_eq_iff hu.ne', e]
      exact haE
    unfold roundMag
    rw [hdiv, roundHalfEven_intCast, e, ← haE]
    exact hy

/-- A positive integer of at most 24 bits is its own rounding. -/
theorem roundMag_natCast (n : ℕ) (h0 : 0 < n) (hn : n ≤ 2 ^ 24) : roundMag (n : ℚ) = (n : ℚ) := by
  have hm : ((n : ℕ) : ℤ) ≤ 2 ^ (24 : ℕ) := by exact_mod_cast hn
  have hpos : (0 : ℚ) < (n : ℚ) := by exact_mod_cast h0
  have e : (((n : ℕ) : ℤ) : ℚ) * (2 : ℚ) ^ (0 : ℤ) = (n : ℚ) := by simp
  have h1 := grid_le_roundMag (n : ℤ) 0 hm (by norm_num) (n : ℚ) hpos (by rw [e])
  have h2 := roundMag_le_grid (n : ℤ) 0 hm (by norm_num) (n : ℚ) hpos (by rw [e])
  rw [e] at h1 h2
  exact le_antisymm h2 h1

/-- An integer of magnitude at most `2^24` converts to `float` exactly. -/
theorem roundF32_intCast (z : ℤ) (hz : z.natAbs ≤ 2 ^ 24) : roundF32 (z : ℚ) = F32.fin (z : ℚ) := by
  unfold roundF32
  by_cases h0 : (z : ℚ) = 0
  · rw [if_pos h0, h0]
  · rw [if_neg h0]
    have hz0 : z ≠ 0 := by exact_mod_cast h0
    have habs : |(z : ℚ)| = ((z.natAbs : ℕ) : ℚ) := by
      rw [Nat.cast_natAbs, Int.cast_abs]
    have hr : roundMag |(z : ℚ)| = |(z : ℚ)| := by
      rw [habs]
      exact roundMag_natCast _ (Int.natAbs_pos.mpr hz0) hz
    have hlt : ¬ ((2 : ℚ) ^ (128 : ℕ) ≤ |(z : ℚ)|) := by
      rw [habs, not_le]
      have h24 : ((z.natAbs : ℕ) : ℚ) ≤ (2 : ℚ) ^ (24 : ℕ) := by exact_mod_cast hz
      have : (2 : ℚ) ^ (24 : ℕ) < (2 : ℚ) ^ (128 : ℕ) := by norm_num
      exact lt_of_le_of_lt h24 this
    simp only [hr, if_neg hlt]
    congr 1
    split
    · rename_i hneg
      rw [abs_of_neg hneg, neg_neg]
    · rename_i hneg
      exact abs_of_nonneg (not_lt.mp hneg)

/-- A natural number of at most 24 bits converts to `float` exactly. -/
theorem roundF32_natCast (n : ℕ) (hn : n ≤ 2 ^ 24) : roundF32 (n : ℚ) = F32.fin (n : ℚ) := by
  have := roundF32_intCast (n : ℤ) (by simpa using hn)
  simpa using this

/-! ## Loop nests over the LED buffer -/

/-- One strip of a loop nest that rewrites each cell from its old value. -/
theorem paint_inner (f : Nat → Nat → Color → Color) (i m : Nat) (a : Nat → Nat → Color) :
    forUpTo m (fun j a => setAt2 a i j (f i j (a i j))) a
      = fun k l => if k = i ∧ l < m then f i l (a k l) else a k l := by
  induction m with
  | zero => funext k l; simp [forUpTo]
  | succ m ih =>
    funext k l
    simp only [forUpTo, ih, setAt2]
    by_cases hk : k = i
    · subst hk
      by_cases hl : l = m
      · subst hl
        simp
      · have : l < m + 1 ↔ l < m := by omega
        simp [hl, this]
    · simp [hk]

/-- A loop nest that rewrites each cell of each strip from its old value: the cells
`[k][l]` with `k < n` and `l < lps k` are rewritten once, the others are left alone. -/
theorem paint_all (f : Nat → Nat → Color → Color) (lps : Nat → Nat) (n : Nat)
    (a : Nat → Nat → Color) :
    forUpTo n (fun i a => forUpTo (lps i) (fun j a => setAt2 a i j (f i j (a i j))) a) a
      = fun k l => if k < n ∧ l < lps k then f k l (a k l) else a k l := by
  induction n with
  | zero => funext k l; simp [forUpTo]
  | succ n ih =>
    funext k l
    simp only [forUpTo]
    rw [ih, paint_inner]
    by_cases hk : k = n
    · subst hk
      simp
    · have : k < n + 1 ↔ k < n := by omega
      simp [hk, this]

/-- One strip of the beat flash: each cell gets the next value of the generator. -/
theorem flash_inner (rnd : Nat → Nat) (i m : Nat) (a : Nat → Nat → Color) (r : Nat) :
    forUpTo m (fun j (a : (Nat → Nat → Color) × Nat) =>
        (setAt2 a.1 i j (Color.hsv (rnd a.2 % 256) 255 255), a.2 + 1)) (a, r)
      = (fun k l => if k = i ∧ l < m then Color.hsv (rnd (r + l) % 256) 255 255 else a k l,
         r + m) := by
  induction m with
  | zero => simp [forUpTo]
  | succ m ih =>
    simp only [forUpTo, ih]
    refine Prod.ext ?_ (by simp; omega)
    funext k l
    simp only [setAt2]
    by_cases hk : k = i
    · subst hk
      by_cases hl : l = m
      · subst hl
        simp
      · have : l < m + 1 ↔ l < m := by omega
        simp [hl, this]
    · simp [hk]

/-- The beat flash over `n` strips: every cell `[k][l]` with `k < n` and `l < lps k` holds a
colour of full saturation and full value, and every other cell is left alone. -/
theorem flash_all (rnd : Nat → Nat) (lps : Nat → Nat) (n : Nat) (a : Nat → Nat → Color)
    (r : Nat) (k l : Nat) :
    (k < n ∧ l < lps k → ∃ h, h < 256 ∧
      (forUpTo n (fun i (a : (Nat → Nat → Color) × Nat) =>
        forUpTo (lps i) (fun j (a : (Nat → Nat → Color) × Nat) =>
          (setAt2 a.1 i j (Color.hsv (rnd a.2 % 256) 255 255), a.2 + 1)) a) (a, r)).1 k l
        = Color.hsv h 255 255)
    ∧ (¬ (k < n ∧ l < lps k) →
      (forUpTo n (fun i (a : (Nat → Nat → Color) × Nat) =>
        forUpTo (lps i) (fun j (a : (Nat → Nat → Color) × Nat) =>
          (setAt2 a.1 i j (Color.hsv (rnd a.2 % 256) 255 255), a.2 + 1)) a) (a, r)).1 k l
        = a k l) := by
  induction n with
  | zero => simp [forUpTo]
  | succ n ih =>
    simp only [forUpTo]
    generalize forUpTo n (fun i (a : (Nat → Nat → Color) × Nat) =>
        forUpTo (lps i) (fun j (a : (Nat → Nat → Color) × Nat) =>
          (setAt2 a.1 i j (Color.hsv (rnd a.2 % 256) 255 255), a.2 + 1)) a) (a, r) = R at ih ⊢
    obtain ⟨b, q⟩ := R
    rw [flash_inner]
    simp only at ih ⊢
    by_cases hk : k = n
    · subst hk
      by_cases hl : l < lps k
      · simp only [hl, and_self, if_true, true_and]
        refine ⟨fun _ => ⟨rnd (q + l) % 256, Nat.mod_lt _ (by norm_num), rfl⟩, ?_⟩
        intro hcon
        exact absurd ⟨Nat.lt_succ_self k, trivial⟩ hcon
      · simp only [hl, and_false, if_false, not_false_eq_true, true_implies, false_implies,
          true_and]
        exact ih.2 (by simp [hl])
    · have hlt : k < n + 1 ↔ k < n := by omega
      simp only [hk, false_and, if_false, hlt]
      exact ih

/-! ## Beat detector: the energy -/

/-- The exact sum of squares is non-negative and at most `2^14` per byte. -/
theorem squareSum_bounds (buf : Nat → Nat) (n : Nat) (hb : ∀ i, i < n → buf i < 256) :
    0 ≤ squareSum buf n ∧ squareSum buf n ≤ (n : ℤ) * 2 ^ 14 := by
  induction n with
  | zero => simp [squareSum]
  | succ n ih =>
    have h := ih (fun i hi => hb i (Nat.lt_succ_of_lt hi))
    have hbn := hb n (Nat.lt_succ_self n)
    have h1 : (0 : ℤ) ≤ ((buf n : ℤ) - 128) ^ 2 := sq_nonneg _
    have h2 : ((buf n : ℤ) - 128) ^ 2 ≤ 2 ^ 14 := by
      have ha : -128 ≤ (buf n : ℤ) - 128 := by omega
      have hc : (buf n : ℤ) - 128 ≤ 128 := by omega
      nlinarith
    simp only [squareSum]
    push_cast
    constructor
    · omega
    · linarith [h.2]

/-- The `float` accumulation of `processBeat` is exact on a chunk of at most 1024 bytes:
the accumulator holds the exact sum of squares. -/
theorem energy_sum_exact (buf : Nat → Nat) (n : Nat) (hn : n ≤ 1024)
    (hb : ∀ i, i < n → buf i < 256) :
    forUpTo n (fun i e =>
      let sample := f32_ofInt ((buf i : Int) - 128)
      f32_add e (f32_mul sample sample)) (F32.fin 0) = F32.fin (squareSum buf n : ℚ) := by
  induction n with
  | zero => simp [forUpTo, squareSum]
  | succ n ih =>
    have hbn := hb n (Nat.lt_succ_self n)
    have hb2 : ∀ i, i < n → buf i < 256 := fun i hi => hb i (Nat.lt_succ_of_lt hi)
    have hs := squareSum_bounds buf (n + 1) hb
    simp only [squareSum] at hs
    have hsq0 : (0 : ℤ) ≤ ((buf n : ℤ) - 128) ^ 2 := sq_nonneg _
    have hsn := squareSum_bounds buf n hb2
    simp only [forUpTo]
    rw [ih (by omega) hb2]
    have e1 : f32_ofInt ((buf n : Int) - 128) = F32.fin (((buf n : Int) - 128 : ℤ) : ℚ) :=
      roundF32_intCast _ (by omega)
    have e2 : roundF32 ((((buf n : Int) - 128 : ℤ) : ℚ) * (((buf n : Int) - 128 : ℤ) : ℚ))
        = F32.fin (((((buf n : Int) - 128) ^ 2 : ℤ)) : ℚ) := by
      have := roundF32_intCast ((((buf n : Int) - 128) ^ 2 : ℤ)) (by
        have h2 : ((buf n : ℤ) - 128) ^ 2 ≤ 2 ^ 14 := by
          have ha : -128 ≤ (buf n : ℤ) - 128 := by omega
          have hc : (buf n : ℤ) - 128 ≤ 128 := by omega
          nlinarith
        omega)
      rw [← this]
      congr 1
      push_cast
      ring
    have e3 : roundF32 ((squareSum buf n : ℚ) + ((((buf n : Int) - 128) ^ 2 : ℤ) : ℚ))
        = F32.fin ((squareSum buf n + ((buf n : ℤ) - 128) ^ 2 : ℤ) : ℚ) := by
      have := roundF32_intCast (squareSum buf n + ((buf n : ℤ) - 128) ^ 2) (by
        have : (n : ℤ) + 1 ≤ 1024 := by omega
        push_cast at hs
        omega)
      rw [← this]
      congr 1
      push_cast
      ring
    simp only [e1, f32_mul, e2, f32_add, e3, squareSum]

/-- The energy that `processBeat` computes for a chunk of at most 1024 bytes is the mean
of the squared centred samples, rounded once to `float`; for an empty chunk it is
not-a-number. -/
theorem chunkEnergy_exact (buf : Nat → Nat) (len : Nat) (hn : len ≤ 1024)
    (hb : ∀ i, i < len → buf i < 256) :
    chunkEnergy buf len
      = if len = 0 then F32.nan else roundF32 (meanSquare buf len) := by
  unfold chunkEnergy
  simp only
  rw [energy_sum_exact buf len hn hb, roundF32_natCast len (by omega)]
  by_cases h0 : len = 0
  · subst h0
    simp [f32_div, squareSum]
  · have hq : ¬ ((len : ℚ) = 0) := by exact_mod_cast h0
    simp only [f32_div, if_neg hq, if_neg h0, meanSquare]

/-- On a chunk of at most 1024 bytes the energy that `processBeat` computes is `> 0`
exactly when the mean of the squared centred samples is. -/
theorem chunkEnergy_pos_iff (buf : Nat → Nat) (len : Nat) (hn : len ≤ 1024)
    (hb : ∀ i, i < len → buf i < 256) :
    f32_gt (chunkEnergy buf len) (F32.fin 0) = true ↔ 0 < meanSquare buf len := by
  rw [chunkEnergy_exact buf len hn hb]
  by_cases h0 : len = 0
  · subst h0
    simp [f32_gt, meanSquare]
  · rw [if_neg h0]
    have hlen : (0 : ℚ) < (len : ℚ) := by exact_mod_cast Nat.pos_of_ne_zero h0
    have hs := (squareSum_bounds buf len hb).1
    have hq0 : 0 ≤ meanSquare buf len :=
      div_nonneg (by exact_mod_cast hs) hlen.le
    by_cases hq : meanSquare buf len = 0
    · rw [hq]
      simp [roundF32, f32_gt]
    · have hpos : 0 < meanSquare buf len := lt_of_le_of_ne hq0 (Ne.symm hq)
      have hneg : ¬ meanSquare buf len < 0 := not_lt.mpr hq0
      have hs1 : (1 : ℤ) ≤ squareSum buf len := by
        rcases hs.lt_or_eq with h | h
        · omega
        · exfalso
          apply hq
          unfold meanSquare
          rw [← h]
          simp
      have hge : ((1 : ℤ) : ℚ) * (2 : ℚ) ^ (-10 : ℤ) ≤ meanSquare buf len := by
        unfold meanSquare
        rw [le_div_iff₀ hlen]
        have h1 : ((1 : ℤ) : ℚ) ≤ (squareSum buf len : ℚ) := by exact_mod_cast hs1
        have h2 : (len : ℚ) ≤ 1024 := by exact_mod_cast hn
        have h3 : ((1 : ℤ) : ℚ) * (2 : ℚ) ^ (-10 : ℤ) = 1 / 1024 := by norm_num
        rw [h3]
        have : (1 / 1024 : ℚ) * (len : ℚ) ≤ 1 := by linarith
        push_cast at h1
        linarith
      have hr := grid_le_roundMag 1 (-10) (by norm_num) (by norm_num) _ hpos hge
      have hrpos : 0 < roundMag (meanSquare buf len) := by
        have : (0 : ℚ) < ((1 : ℤ) : ℚ) * (2 : ℚ) ^ (-10 : ℤ) := by norm_num
        exact lt_of_lt_of_le this hr
      simp only [roundF32, if_neg hq, hneg, decide_False, if_false, abs_of_pos hpos, hpos,
        iff_true]
      split
      · rfl
      · simpa [f32_gt] using hrpos

/-- The energy of the one-byte chunk `129` is 1. -/
theorem chunkEnergy_warmup :
    chunkEnergy warmupState.audioBuffer warmupState.audioBufferLen = F32.fin 1 := by
  have h : warmupState.audioBufferLen = 1 := by
    simp [warmupState, read_data_stream, AUDIO_BUFFER_SIZE]
  have hb : ∀ i, i < 1 → warmupState.audioBuffer i < 256 := by
    intro i hi
    simp [warmupState, read_data_stream, AUDIO_BUFFER_SIZE, memcpy, hi]
  rw [h, chunkEnergy_exact _ 1 (by norm_num) hb]
  have h0 : warmupState.audioBuffer 0 = 129 := by
    simp [warmupState, read_data_stream, AUDIO_BUFFER_SIZE, memcpy]
  have : meanSquare warmupState.audioBuffer 1 = ((1 : ℕ) : ℚ) := by
    simp [meanSquare, squareSum, h0]
  rw [if_neg (by norm_num), this, roundF32_natCast 1 (by norm_num)]
  simp

/-! ## Beat detector: firing -/

/-- What `processBeat` leaves when the beat fires. -/
theorem processBeat_of_fires (rnd : Nat → Nat) (now1 now2 : Nat) (st : State)
    (hready : st.newAudioData = true) (hf : beatFires now1 st = true) :
    processBeat rnd now1 now2 st
      = { beatFlash rnd st with
            lastBeatTime := now2 % 2 ^ 32,
            lastEnergy := chunkEnergy st.audioBuffer st.audioBufferLen,
            newAudioData := false } := by
  simp [processBeat, hready, hf]

/-- What `processBeat` leaves when the beat does not fire. -/
theorem processBeat_of_not_fires (rnd : Nat → Nat) (now1 now2 : Nat) (st : State)
    (hready : st.newAudioData = true) (hf : beatFires now1 st = false) :
    processBeat rnd now1 now2 st
      = { beatFade st with
            lastEnergy := chunkEnergy st.audioBuffer st.audioBufferLen,
            newAudioData := false } := by
  simp [processBeat, hready, hf]

/-- C3, as the code has it: from the initial beat state (`lastEnergy = 0`,
`lastBeatTime = 0`), the first call of `processBeat` on a ready chunk of energy `> 0` fires
a beat whenever the clock reading of the call is more than `beatCooldown = 150` ms: every
LED `j < ledsPerStrip[i]` of every strip `i < stripCount` is set to a colour of full
saturation and full value, and `lastBeatTime` becomes the current time. -/
theorem processBeat_warmup (rnd : Nat → Nat) (now1 now2 : Nat) (st : State)
    (hready : st.newAudioData = true)
    (hE : st.lastEnergy = F32.fin 0) (hT : st.lastBeatTime = 0)
    (hpos : f32_gt (chunkEnergy st.audioBuffer st.audioBufferLen) (F32.fin 0) = true)
    (hclock : beatCooldown < now1 % 2 ^ 32) :
    beatFires now1 st = true
    ∧ (∀ i j, i < st.stripCount → j < st.ledsPerStrip i →
        ∃ h, h < 256 ∧ (processBeat rnd now1 now2 st).leds i j = Color.hsv h 255 255)
    ∧ (processBeat rnd now1 now2 st).lastBeatTime = now2 % 2 ^ 32 := by
  have hthr : f32_mul beatThreshold st.lastEnergy = F32.fin 0 := by
    rw [hE]
    simp [beatThreshold, f32_mul, roundF32]
  have hsub : subU32 now1 st.lastBeatTime = now1 % 2 ^ 32 := by
    rw [hT]
    unfold subU32
    have : now1 % 2 ^ 32 < 2 ^ 32 := Nat.mod_lt _ (by norm_num)
    omega
  have hf : beatFires now1 st = true := by
    unfold beatFires
    rw [hthr, hpos, hsub]
    simpa using hclock
  refine ⟨hf, ?_, ?_⟩
  · intro i j hi hj
    rw [processBeat_of_fires rnd now1 now2 st hready hf]
    exact (flash_all rnd st.ledsPerStrip st.stripCount st.leds st.randCalls i j).1 ⟨hi, hj⟩
  · rw [processBeat_of_fires rnd now1 now2 st hready hf]

/-- C3 at the one-byte chunk `129` delivered to a freshly booted controller, one second
after boot. -/
theorem processBeat_warmup_witness :
    beatFires 1000 warmupState = true
    ∧ (∀ i j, i < warmupState.stripCount → j < warmupState.ledsPerStrip i →
        ∃ h, h < 256 ∧ (processBeat (fun _ => 7) 1000 1001 warmupState).leds i j
          = Color.hsv h 255 255)
    ∧ (processBeat (fun _ => 7) 1000 1001 warmupState).lastBeatTime = 1001 % 2 ^ 32 :=
  processBeat_warmup (fun _ => 7) 1000 1001 warmupState rfl rfl rfl
    (by rw [chunkEnergy_warmup]; simp [f32_gt]) (by norm_num [beatCooldown])

/-- C3 as stated fails inside the cool-down window: with the clock at 100 ms the first
call on a chunk of energy `1 > 0`, from `lastEnergy = 0` and `lastBeatTime = 0`, does not
fire.  LED 0 of strip 0 is faded, not set to a saturated colour, and `lastBeatTime` stays 0
instead of becoming 100. -/
theorem first_beat_blocked_by_cooldown :
    warmupState.newAudioData = true
    ∧ warmupState.lastEnergy = F32.fin 0
    ∧ warmupState.lastBeatTime = 0
    ∧ f32_gt (chunkEnergy warmupState.audioBuffer warmupState.audioBufferLen) (F32.fin 0) = true
    ∧ 0 < warmupState.stripCount ∧ 0 < warmupState.ledsPerStrip 0
    ∧ beatFires 100 warmupState = false
    ∧ (processBeat (fun _ => 7) 100 100 warmupState).leds 0 0
        = Color.faded (Color.rgb 0 0 0) 20
    ∧ (processBeat (fun _ => 7) 100 100 warmupState).lastBeatTime = 0 := by
  have hf : beatFires 100 warmupState = false := by
    have : warmupState.lastBeatTime = 0 := rfl
    simp [beatFires, this, subU32, beatCooldown]
  refine ⟨rfl, rfl, rfl, by rw [chunkEnergy_warmup]; simp [f32_gt], by decide, by decide, hf,
    ?_, ?_⟩
  · rw [processBeat_of_not_fires _ 100 100 warmupState rfl hf]
    simp only [beatFade]
    rw [paint_all (fun _ _ c => Color.faded c 20)]
    have h1 : warmupState.stripCount = 1 := rfl
    have h2 : warmupState.ledsPerStrip 0 = 30 := rfl
    have h3 : warmupState.leds 0 0 = Color.rgb 0 0 0 := rfl
    simp [h1, h2, h3]
  · rw [processBeat_of_not_fires _ 100 100 warmupState rfl hf]
    rfl

/-- C4: of two consecutive ready chunks with equal energy, the second does not fire,
whatever the four clock readings of the two calls: the call takes the fade branch (every
LED `j < ledsPerStrip[i]` of every strip `i < stripCount` is faded by 20, every other cell
is left alone) and leaves `lastBeatTime` unchanged. -/
theorem processBeat_equal_energy (rnd : Nat → Nat) (t1 t2 t3 t4 : Nat) (st : State)
    (data : Nat → Nat) (len : Nat)
    (hready : st.newAudioData = true)
    (heq : chunkEnergy (read_data_stream data len (processBeat rnd t1 t2 st)).audioBuffer
             (read_data_stream data len (processBeat rnd t1 t2 st)).audioBufferLen
           = chunkEnergy st.audioBuffer st.audioBufferLen) :
    beatFires t3 (read_data_stream data len (processBeat rnd t1 t2 st)) = false
    ∧ (processBeat rnd t3 t4 (read_data_stream data len (processBeat rnd t1 t2 st))).lastBeatTime
        = (read_data_stream data len (processBeat rnd t1 t2 st)).lastBeatTime
    ∧ ∀ i j,
        (processBeat rnd t3 t4 (read_data_stream data len (processBeat rnd t1 t2 st))).leds i j
          = if i < (read_data_stream data len (processBeat rnd t1 t2 st)).stripCount
                ∧ j < (read_data_stream data len (processBeat rnd t1 t2 st)).ledsPerStrip i
            then Color.faded ((read_data_stream data len (processBeat rnd t1 t2 st)).leds i j) 20
            else (read_data_stream data len (processBeat rnd t1 t2 st)).leds i j := by
  have hlast : (read_data_stream data len (processBeat rnd t1 t2 st)).lastEnergy
      = chunkEnergy st.audioBuffer st.audioBufferLen := by
    cases hf : beatFires t1 st
    · rw [processBeat_of_not_fires rnd t1 t2 st hready hf]
      rfl
    · rw [processBeat_of_fires rnd t1 t2 st hready hf]
      rfl
  have hr2 : (read_data_stream data len (processBeat rnd t1 t2 st)).newAudioData = true := rfl
  generalize read_data_stream data len (processBeat rnd t1 t2 st) = st2 at heq hlast hr2 ⊢
  have hf : beatFires t3 st2 = false := by
    unfold beatFires
    rw [hlast, ← heq, not_gt_threshold_self (chunkEnergy_onGrid _ _)]
    rfl
  refine ⟨hf, ?_, ?_⟩
  · rw [processBeat_of_not_fires rnd t3 t4 st2 hr2 hf]
    rfl
  · intro i j
    rw [processBeat_of_not_fires rnd t3 t4 st2 hr2 hf]
    simp only [beatFade]
    rw [paint_all (fun _ _ c => Color.faded c 20)]

/-- C4 at the one-byte chunk `129` delivered twice to a freshly booted controller. -/
theorem processBeat_equal_energy_witness :
    beatFires 5000 (read_data_stream (fun _ => 129) 1
      (processBeat (fun _ => 7) 1000 1001 warmupState)) = false
    ∧ (processBeat (fun _ => 7) 5000 5001 (read_data_stream (fun _ => 129) 1
        (processBeat (fun _ => 7) 1000 1001 warmupState))).lastBeatTime
        = (read_data_stream (fun _ => 129) 1
            (processBeat (fun _ => 7) 1000 1001 warmupState)).lastBeatTime
    ∧ ∀ i j,
        (processBeat (fun _ => 7) 5000 5001 (read_data_stream (fun _ => 129) 1
          (processBeat (fun _ => 7) 1000 1001 warmupState))).leds i j
          = if i < (read_data_stream (fun _ => 129) 1
                  (processBeat (fun _ => 7) 1000 1001 warmupState)).stripCount
                ∧ j < (read_data_stream (fun _ => 129) 1
                  (processBeat (fun _ => 7) 1000 1001 warmupState)).ledsPerStrip i
            then Color.faded ((read_data_stream (fun _ => 129) 1
                  (processBeat (fun _ => 7) 1000 1001 warmupState)).leds i j) 20
            else (read_data_stream (fun _ => 129) 1
                  (processBeat (fun _ => 7) 1000 1001 warmupState)).leds i j :=
  processBeat_equal_energy (fun _ => 7) 1000 1001 5000 5001 warmupState (fun _ => 129) 1 rfl
    (by
      have hb : (read_data_stream (fun _ => 129) 1
          (processBeat (fun _ => 7) 1000 1001 warmupState)).audioBufferLen = 1 := by
        simp [read_data_stream, AUDIO_BUFFER_SIZE]
      have hw : warmupState.audioBufferLen = 1 := by
        simp [warmupState, read_data_stream, AUDIO_BUFFER_SIZE]
      rw [hb, hw]
      simp [chunkEnergy, forUpTo, read_data_stream, memcpy, warmupState, AUDIO_BUFFER_SIZE])

/-! ## Touch handling: one tap per screen -/

/-- A sample outside the pressure window changes nothing. -/
theorem handleTouch_invalid (p : TSPoint) (st : State) (hv : validTouch p = false) :
    handleTouch p st = st := by
  simp [handleTouch, hv]

/-- A valid tap on the strip-count screen. -/
theorem handleTouch_strips (p : TSPoint) (st : State) (hv : validTouch p = true)
    (hs : st.currentScreen = ScreenID.LED_CONFIG_STRIPS) :
    handleTouch p st
      = { st with stripCount := (constrain ((st.stripCount : Int) + 1) 1 MAX_STRIPS).toNat % 2 ^ 8,
                  currentStripIndex := 0,
                  currentScreen := ScreenID.LED_CONFIG_COUNT } := by
  simp [handleTouch, hv, hs]

/-- The new strip count after a tap on the strip-count screen, from a count in `[1, 4]`. -/
theorem stripCount_step (s0 : Nat) (h1 : 1 ≤ s0) (h4 : s0 ≤ 4) :
    (constrain ((s0 : Int) + 1) 1 MAX_STRIPS).toNat % 2 ^ 8 = min (s0 + 1) 4 := by
  unfold constrain MAX_STRIPS
  interval_cases s0 <;> decide

/-- A valid tap on the per-strip screen that is not the last of the flow. -/
theorem handleTouch_count_more (p : TSPoint) (st : State) (hv : validTouch p = true)
    (hs : st.currentScreen = ScreenID.LED_CONFIG_COUNT)
    (hlt : st.currentStripIndex + 1 < st.stripCount) (hc : st.stripCount ≤ 256) :
    handleTouch p st
      = { st with
          ledsPerStrip := setAt st.ledsPerStrip st.currentStripIndex
                            (ledStep (st.ledsPerStrip st.currentStripIndex)),
          currentStripIndex := st.currentStripIndex + 1 } := by
  have hm : (st.currentStripIndex + 1) % 256 = st.currentStripIndex + 1 :=
    Nat.mod_eq_of_lt (by omega)
  have hn : ¬ (st.stripCount ≤ st.currentStripIndex + 1) := by omega
  simp [handleTouch, hv, hs, hm, hn]

/-- The valid tap on the per-strip screen that completes the flow. -/
theorem handleTouch_count_last (p : TSPoint) (st : State) (hv : validTouch p = true)
    (hs : st.currentScreen = ScreenID.LED_CONFIG_COUNT)
    (hge : st.stripCount ≤ st.currentStripIndex + 1) (hc : st.currentStripIndex + 1 < 256) :
    handleTouch p st
      = { saveConfig { st with
            ledsPerStrip := setAt st.ledsPerStrip st.currentStripIndex
                              (ledStep (st.ledsPerStrip st.currentStripIndex)),
            currentStripIndex := st.currentStripIndex + 1 }
          with currentScreen := ScreenID.MAIN_MENU } := by
  have hm : (st.currentStripIndex + 1) % 256 = st.currentStripIndex + 1 :=
    Nat.mod_eq_of_lt (by omega)
  simp [handleTouch, hv, hs, hm, hge]

/-- Taps on the per-strip screen that stop short of the strip count: the screen stays,
the index advances by one per tap, the strips passed are stepped once, nothing is saved. -/
theorem touches_count_more (ps : List TSPoint) :
    ∀ st : State, (∀ p ∈ ps, validTouch p = true) →
      st.currentScreen = ScreenID.LED_CONFIG_COUNT →
      st.currentStripIndex + ps.length < st.stripCount → st.stripCount ≤ 256 →
      (touches ps st).currentScreen = ScreenID.LED_CONFIG_COUNT
      ∧ (touches ps st).currentStripIndex = st.currentStripIndex + ps.length
      ∧ (touches ps st).stripCount = st.stripCount
      ∧ (touches ps st).saveCalls = st.saveCalls
      ∧ (touches ps st).audioMode = st.audioMode
      ∧ ∀ i, (touches ps st).ledsPerStrip i
          = if st.currentStripIndex ≤ i ∧ i < st.currentStripIndex + ps.length
            then ledStep (st.ledsPerStrip i) else st.ledsPerStrip i := by
  induction ps with
  | nil =>
    intro st _ hs _ _
    refine ⟨hs, rfl, rfl, rfl, rfl, ?_⟩
    intro i
    have : ¬ (st.currentStripIndex ≤ i ∧ i < st.currentStripIndex + ([] : List TSPoint).length) := by
      simp only [List.length_nil]
      omega
    rw [if_neg this]
    rfl
  | cons p ps ih =>
    intro st hv hs hlt hc
    have hvp : validTouch p = true := hv p (List.mem_cons_self _ _)
    have hvs : ∀ q ∈ ps, validTouch q = true := fun q hq => hv q (List.mem_cons_of_mem _ hq)
    simp only [List.length_cons] at hlt
    have hstep := handleTouch_count_more p st hvp hs (by omega) hc
    have htail : touches (p :: ps) st = touches ps (handleTouch p st) := rfl
    rw [htail, hstep]
    have := ih { st with
        ledsPerStrip := setAt st.ledsPerStrip st.currentStripIndex
                          (ledStep (st.ledsPerStrip st.currentStripIndex)),
        currentStripIndex := st.currentStripIndex + 1 } hvs hs (by simp only; omega) hc
    obtain ⟨a1, a2, a3, a4, a5, a6⟩ := this
    refine ⟨a1, ?_, a3, a4, a5, ?_⟩
    · rw [a2]
      simp only [List.length_cons]
      omega
    · intro i
      rw [a6 i]
      simp only [setAt, List.length_cons]
      by_cases hi : i = st.currentStripIndex
      · subst hi
        have h1 : ¬ (st.currentStripIndex + 1 ≤ st.currentStripIndex) := by omega
        simp [h1]
      · have h1 : (st.currentStripIndex + 1 ≤ i ∧ i < st.currentStripIndex + 1 + ps.length)
            ↔ (st.currentStripIndex ≤ i ∧ i < st.currentStripIndex + (ps.length + 1)) := by omega
        simp only [hi, if_false, h1]

/-- Handling a list of samples that ends with `q`. -/
theorem touches_append_one (ps : List TSPoint) (q : TSPoint) (st : State) :
    touches (ps ++ [q]) st = handleTouch q (touches ps st) := by
  simp [touches, List.foldl_append]

/-- Saving leaves the configuration, the screen and the flow index alone. -/
theorem saveConfig_frame (st : State) :
    (saveConfig st).stripCount = st.stripCount
    ∧ (saveConfig st).ledsPerStrip = st.ledsPerStrip
    ∧ (saveConfig st).audioMode = st.audioMode
    ∧ (saveConfig st).currentScreen = st.currentScreen
    ∧ (saveConfig st).currentStripIndex = st.currentStripIndex
    ∧ (saveConfig st).saveCalls = st.saveCalls + 1 :=
  ⟨rfl, rfl, rfl, rfl, rfl, rfl⟩

/-! ## Touch handling: the configuration flows -/

/-- C5: from the strip-count screen with a strip count `s0` in `[1, 4]`, one valid tap
followed by exactly `s = min (s0 + 1) 4` valid taps ends on the main menu with the strip
count `s`, `saveConfig` called exactly once, the LED counts of strips `0 .. s-1` each
advanced by one increment step and every other entry unchanged; after every shorter run of
taps (the first tap and fewer than `s` per-strip taps) the screen is the per-strip
screen and nothing has been saved. -/
theorem strip_config_flow (st : State) (taps : List TSPoint)
    (hs : st.currentScreen = ScreenID.LED_CONFIG_STRIPS)
    (h1 : 1 ≤ st.stripCount) (h4 : st.stripCount ≤ 4)
    (hv : ∀ p ∈ taps, validTouch p = true)
    (hlen : taps.length = 1 + min (st.stripCount + 1) 4) :
    (touches taps st).currentScreen = ScreenID.MAIN_MENU
    ∧ (touches taps st).stripCount = min (st.stripCount + 1) 4
    ∧ (touches taps st).saveCalls = st.saveCalls + 1
    ∧ (∀ i, (touches taps st).ledsPerStrip i
        = if i < min (st.stripCount + 1) 4 then ledStep (st.ledsPerStrip i)
          else st.ledsPerStrip i)
    ∧ (∀ n, 1 ≤ n → n ≤ min (st.stripCount + 1) 4 →
        (touches (taps.take n) st).currentScreen = ScreenID.LED_CONFIG_COUNT
        ∧ (touches (taps.take n) st).saveCalls = st.saveCalls) := by
  obtain ⟨p0, rest, rfl⟩ : ∃ p0 rest, taps = p0 :: rest := by
    cases taps with
    | nil => simp at hlen; omega
    | cons a l => exact ⟨a, l, rfl⟩
  have hv0 : validTouch p0 = true := hv p0 (List.mem_cons_self _ _)
  have hvr : ∀ q ∈ rest, validTouch q = true := fun q hq => hv q (List.mem_cons_of_mem _ hq)
  have hrl : rest.length = min (st.stripCount + 1) 4 := by
    simp only [List.length_cons] at hlen
    omega
  have hs2 : 2 ≤ min (st.stripCount + 1) 4 := by omega
  have hhead : ∀ l : List TSPoint, touches (p0 :: l) st = touches l (handleTouch p0 st) :=
    fun _ => rfl
  have hfirst := handleTouch_strips p0 st hv0 hs
  rw [stripCount_step st.stripCount h1 h4] at hfirst
  have f1 : (handleTouch p0 st).currentScreen = ScreenID.LED_CONFIG_COUNT := by rw [hfirst]
  have f2 : (handleTouch p0 st).currentStripIndex = 0 := by rw [hfirst]
  have f3 : (handleTouch p0 st).stripCount = min (st.stripCount + 1) 4 := by rw [hfirst]
  have f4 : (handleTouch p0 st).saveCalls = st.saveCalls := by rw [hfirst]
  have f5 : (handleTouch p0 st).ledsPerStrip = st.ledsPerStrip := by rw [hfirst]
  simp only [hhead, List.take_succ_cons]
  generalize handleTouch p0 st = st1 at f1 f2 f3 f4 f5 ⊢
  have hshort : ∀ n, 1 ≤ n → n ≤ min (st.stripCount + 1) 4 →
      (touches ((p0 :: rest).take n) st).currentScreen = ScreenID.LED_CONFIG_COUNT
      ∧ (touches ((p0 :: rest).take n) st).saveCalls = st.saveCalls := by
    intro n hn1 hn
    obtain ⟨k, rfl⟩ : ∃ k, n = k + 1 := ⟨n - 1, by omega⟩
    rw [List.take_succ_cons, hhead]
    have hmid := touches_count_more (rest.take k) (handleTouch p0 st)
      (fun r hr => hvr r (List.mem_of_mem_take hr)) (by rw [hfirst])
      (by rw [hfirst]; simp only [List.length_take]; omega)
      (by rw [hfirst]; simp only; omega)
    obtain ⟨m1, _, _, m4, _, _⟩ := hmid
    refine ⟨m1, ?_⟩
    rw [m4, hfirst]
  obtain ⟨front, q, rfl⟩ : ∃ front q, rest = front ++ [q] := by
    rcases List.eq_nil_or_concat rest with h | ⟨front, q, h⟩
    · rw [h] at hrl
      simp at hrl
      omega
    · exact ⟨front, q, by simpa using h⟩
  have hvq : validTouch q = true := hvr q (by simp)
  have hvf : ∀ r ∈ front, validTouch r = true := fun r hr => hvr r (by simp [hr])
  have hfl : front.length + 1 = min (st.stripCount + 1) 4 := by
    simpa using hrl
  have hmid := touches_count_more front st1 hvf f1 (by omega) (by omega)
  obtain ⟨m1, m2, m3, m4, m5, m6⟩ := hmid
  rw [f2, zero_add] at m2
  rw [f3] at m3
  rw [f4] at m4
  have hlast := handleTouch_count_last q (touches front st1) hvq m1
    (by rw [m2, m3]; omega) (by rw [m2]; omega)
  rw [touches_append_one, hlast]
  refine ⟨rfl, m3, ?_, ?_, hshort⟩
  · show _ + 1 = st.saveCalls + 1
    rw [m4]
  · intro i
    show setAt _ _ _ i = _
    simp only [setAt, m2, m6, f2, f5]
    by_cases hi : i = front.length
    · have : i < min (st.stripCount + 1) 4 := by omega
      rw [if_pos hi, if_pos this, if_neg (by omega), hi]
    · by_cases hlt : i < front.length
      · have : i < min (st.stripCount + 1) 4 := by omega
        rw [if_neg hi, if_pos this, if_pos ⟨Nat.zero_le _, by omega⟩]
      · have : ¬ i < min (st.stripCount + 1) 4 := by omega
        rw [if_neg hi, if_neg this, if_neg (by omega)]

/-- C5 on a first boot (strip count 1): three taps, two strips configured, one save. -/
theorem strip_config_flow_witness :
    (touches [tapRow60, tapRow60, tapRow150] stripConfigState).currentScreen = ScreenID.MAIN_MENU
    ∧ (touches [tapRow60, tapRow60, tapRow150] stripConfigState).stripCount
        = min (stripConfigState.stripCount + 1) 4
    ∧ (touches [tapRow60, tapRow60, tapRow150] stripConfigState).saveCalls
        = stripConfigState.saveCalls + 1
    ∧ (∀ i, (touches [tapRow60, tapRow60, tapRow150] stripConfigState).ledsPerStrip i
        = if i < min (stripConfigState.stripCount + 1) 4
          then ledStep (stripConfigState.ledsPerStrip i)
          else stripConfigState.ledsPerStrip i)
    ∧ (∀ n, 1 ≤ n → n ≤ min (stripConfigState.stripCount + 1) 4 →
        (touches ([tapRow60, tapRow60, tapRow150].take n) stripConfigState).currentScreen
          = ScreenID.LED_CONFIG_COUNT
        ∧ (touches ([tapRow60, tapRow60, tapRow150].take n) stripConfigState).saveCalls
          = stripConfigState.saveCalls) :=
  strip_config_flow stripConfigState [tapRow60, tapRow60, tapRow150] rfl (by decide) (by decide)
    (by decide) (by decide)

/-- A valid tap on the main menu inside the audio-mode rows only changes the screen. -/
theorem handleTouch_menu_audio (p : TSPoint) (st : State) (hv : validTouch p = true)
    (hs : st.currentScreen = ScreenID.MAIN_MENU) (hy : 50 ≤ touchY p ∧ touchY p < 80) :
    handleTouch p st = { st with currentScreen := ScreenID.AUDIO_MODE } := by
  simp [handleTouch, hv, hs, hy.1, hy.2]

/-- A valid tap on the audio-mode screen inside the beat rows. -/
theorem handleTouch_audio_beat (p : TSPoint) (st : State) (hv : validTouch p = true)
    (hs : st.currentScreen = ScreenID.AUDIO_MODE) (hy : 140 ≤ touchY p ∧ touchY p < 170) :
    handleTouch p st
      = { saveConfig { st with audioMode := "beat" } with
            currentScreen := ScreenID.MAIN_MENU } := by
  have h1 : ¬ (100 ≤ touchY p ∧ touchY p < 130) := by omega
  simp [handleTouch, hv, hs, h1, hy.1, hy.2]

/-- C6: on the main menu a valid touch in the audio-mode rows `[50, 80)` followed by a
valid touch in the beat rows `[140, 170)` leaves the audio mode `"beat"`, the screen on the
main menu, the strip count and the LED counts unchanged, and calls `saveConfig` exactly
once (on the second touch), which stores the mode `"beat"`. -/
theorem audio_mode_beat_flow (p1 p2 : TSPoint) (st : State)
    (hs : st.currentScreen = ScreenID.MAIN_MENU)
    (hv1 : validTouch p1 = true) (hy1 : 50 ≤ touchY p1 ∧ touchY p1 < 80)
    (hv2 : validTouch p2 = true) (hy2 : 140 ≤ touchY p2 ∧ touchY p2 < 170) :
    (handleTouch p2 (handleTouch p1 st)).audioMode = "beat"
    ∧ (handleTouch p2 (handleTouch p1 st)).currentScreen = ScreenID.MAIN_MENU
    ∧ (handleTouch p2 (handleTouch p1 st)).stripCount = st.stripCount
    ∧ (handleTouch p2 (handleTouch p1 st)).ledsPerStrip = st.ledsPerStrip
    ∧ (handleTouch p1 st).saveCalls = st.saveCalls
    ∧ (handleTouch p2 (handleTouch p1 st)).saveCalls = st.saveCalls + 1
    ∧ getString "audioMode" "fft" (handleTouch p2 (handleTouch p1 st)).prefs = "beat" := by
  rw [handleTouch_menu_audio p1 st hv1 hs hy1]
  rw [handleTouch_audio_beat p2 _ hv2 rfl hy2]
  refine ⟨rfl, rfl, rfl, rfl, rfl, rfl, ?_⟩
  simp [saveConfig, getString, putString]

/-- C6 on a first boot, with two concrete taps. -/
theorem audio_mode_beat_flow_witness :
    (handleTouch tapRow150 (handleTouch tapRow60 mainMenuState)).audioMode = "beat"
    ∧ (handleTouch tapRow150 (handleTouch tapRow60 mainMenuState)).currentScreen
        = ScreenID.MAIN_MENU
    ∧ (handleTouch tapRow150 (handleTouch tapRow60 mainMenuState)).stripCount
        = mainMenuState.stripCount
    ∧ (handleTouch tapRow150 (handleTouch tapRow60 mainMenuState)).ledsPerStrip
        = mainMenuState.ledsPerStrip
    ∧ (handleTouch tapRow60 mainMenuState).saveCalls = mainMenuState.saveCalls
    ∧ (handleTouch tapRow150 (handleTouch tapRow60 mainMenuState)).saveCalls
        = mainMenuState.saveCalls + 1
    ∧ getString "audioMode" "fft"
        (handleTouch tapRow150 (handleTouch tapRow60 mainMenuState)).prefs = "beat" :=
  audio_mode_beat_flow tapRow60 tapRow150 mainMenuState rfl (by decide) (by decide)
    (by decide) (by decide)

/-- The increment step on a 16-bit cell, case by case. -/
theorem ledStep_cases (c : Nat) :
    ledStep c = (if (c + 10) % 2 ^ 16 ≤ 150 then (c + 10) % 2 ^ 16 else 10)
    ∧ (c ≤ 150 → 10 ≤ ledStep c ∧ ledStep c ≤ 150) := by
  unfold ledStep
  simp only
  constructor
  · split_ifs <;> omega
  · intro hc
    have : (c + 10) % 2 ^ 16 = c + 10 := Nat.mod_eq_of_lt (by omega)
    rw [this]
    split_ifs <;> omega

/-- C7: a valid tap on the per-strip screen replaces the LED count `c` of the current
strip, a 16-bit cell, by `c + 10` (modulo `2^16`) when that is at most 150 and by 10 when
it exceeds 150; so 150 becomes 10, 20 becomes 30, and a count `c ≤ 150` stays within
`[10, 150]`.  No other strip's count changes. -/
theorem led_count_step (p : TSPoint) (st : State) (hv : validTouch p = true)
    (hs : st.currentScreen = ScreenID.LED_CONFIG_COUNT) :
    (handleTouch p st).ledsPerStrip st.currentStripIndex
      = (if (st.ledsPerStrip st.currentStripIndex + 10) % 2 ^ 16 ≤ 150
         then (st.ledsPerStrip st.currentStripIndex + 10) % 2 ^ 16 else 10)
    ∧ (st.ledsPerStrip st.currentStripIndex = 150 →
        (handleTouch p st).ledsPerStrip st.currentStripIndex = 10)
    ∧ (st.ledsPerStrip st.currentStripIndex = 20 →
        (handleTouch p st).ledsPerStrip st.currentStripIndex = 30)
    ∧ (st.ledsPerStrip st.currentStripIndex ≤ 150 →
        10 ≤ (handleTouch p st).ledsPerStrip st.currentStripIndex
        ∧ (handleTouch p st).ledsPerStrip st.currentStripIndex ≤ 150)
    ∧ (∀ i, i ≠ st.currentStripIndex → (handleTouch p st).ledsPerStrip i = st.ledsPerStrip i) := by
  have hl : (handleTouch p st).ledsPerStrip
      = setAt st.ledsPerStrip st.currentStripIndex
          (ledStep (st.ledsPerStrip st.currentStripIndex)) := by
    simp only [handleTouch, hv, hs, if_true]
    split <;> rfl
  rw [hl]
  have hc := ledStep_cases (st.ledsPerStrip st.currentStripIndex)
  simp only [setAt, if_true]
  refine ⟨hc.1, ?_, ?_, hc.2, ?_⟩
  · intro h
    rw [h]
    decide
  · intro h
    rw [h]
    decide
  · intro i hi
    rw [if_neg hi]

/-- C7 at a strip of 150 LEDs: the count wraps to 10. -/
theorem led_count_step_witness :
    (handleTouch tapRow60 countConfigState).ledsPerStrip countConfigState.currentStripIndex
      = (if (countConfigState.ledsPerStrip countConfigState.currentStripIndex + 10) % 2 ^ 16 ≤ 150
         then (countConfigState.ledsPerStrip countConfigState.currentStripIndex + 10) % 2 ^ 16
         else 10)
    ∧ (countConfigState.ledsPerStrip countConfigState.currentStripIndex = 150 →
        (handleTouch tapRow60 countConfigState).ledsPerStrip countConfigState.currentStripIndex
          = 10)
    ∧ (countConfigState.ledsPerStrip countConfigState.currentStripIndex = 20 →
        (handleTouch tapRow60 countConfigState).ledsPerStrip countConfigState.currentStripIndex
          = 30)
    ∧ (countConfigState.ledsPerStrip countConfigState.currentStripIndex ≤ 150 →
        10 ≤ (handleTouch tapRow60 countConfigState).ledsPerStrip
               countConfigState.currentStripIndex
        ∧ (handleTouch tapRow60 countConfigState).ledsPerStrip
               countConfigState.currentStripIndex ≤ 150)
    ∧ (∀ i, i ≠ countConfigState.currentStripIndex →
        (handleTouch tapRow60 countConfigState).ledsPerStrip i
          = countConfigState.ledsPerStrip i) :=
  led_count_step tapRow60 countConfigState (by decide) rfl

/-! ## Persistence: the keys are distinct -/

/-- A decimal digit character writes its digit. -/
theorem digitChar_value (k : Nat) (hk : k < 10) : (Nat.digitChar k).toNat - 48 = k := by
  interval_cases k <;> rfl

/-- The digits that `Nat.toDigitsCore` puts in front of `ds` write `n`. -/
theorem toDigitsCore_value (fuel : Nat) :
    ∀ n ds, n < fuel →
      ∃ l, Nat.toDigitsCore 10 fuel n ds = l ++ ds ∧ digitsValue l = n := by
  induction fuel with
  | zero => intro n ds h; omega
  | succ fuel ih =>
    intro n ds h
    simp only [Nat.toDigitsCore]
    by_cases h0 : n / 10 = 0
    · rw [if_pos h0]
      refine ⟨[Nat.digitChar (n % 10)], rfl, ?_⟩
      simp only [digitsValue, List.foldl]
      rw [digitChar_value _ (Nat.mod_lt _ (by norm_num))]
      omega
    · rw [if_neg h0]
      obtain ⟨l, hl, hv⟩ := ih (n / 10) (Nat.digitChar (n % 10) :: ds) (by omega)
      refine ⟨l ++ [Nat.digitChar (n % 10)], by rw [hl]; simp, ?_⟩
      unfold digitsValue at hv ⊢
      rw [List.foldl_append, hv]
      simp only [List.foldl]
      rw [digitChar_value _ (Nat.mod_lt _ (by norm_num))]
      omega

/-- The decimal rendering of a number determines the number. -/
theorem toString_nat_injective (i j : Nat) (h : toString i = toString j) : i = j := by
  obtain ⟨li, hli, hvi⟩ := toDigitsCore_value (i + 1) i [] (Nat.lt_succ_self i)
  obtain ⟨lj, hlj, hvj⟩ := toDigitsCore_value (j + 1) j [] (Nat.lt_succ_self j)
  have hd : (toString i).data = (toString j).data := by rw [h]
  have e : ∀ n : Nat, (toString n).data = Nat.toDigitsCore 10 (n + 1) n [] := fun _ => rfl
  rw [e, e, hli, hlj] at hd
  simp only [List.append_nil] at hd
  rw [← hvi, ← hvj, hd]

/-- Two strips have two keys. -/
theorem ledsKey_injective (i j : Nat) (h : ledsKey i = ledsKey j) : i = j := by
  apply toString_nat_injective
  have hd : (ledsKey i).data = (ledsKey j).data := by rw [h]
  simp only [ledsKey, String.data_append] at hd
  exact String.ext (List.append_cancel_left hd)

/-- No strip key is the strip-count key. -/
theorem ledsKey_ne_stripCount (i : Nat) : ledsKey i ≠ "stripCount" := by
  intro h
  have hd : (ledsKey i).data = ("stripCount" : String).data := by rw [h]
  simp only [ledsKey, String.data_append] at hd
  have h1 : (("leds_" : String).data ++ (toString i).data).head? = some 'l' := rfl
  rw [hd] at h1
  revert h1
  decide

/-- No strip key is the audio-mode key. -/
theorem ledsKey_ne_audioMode (i : Nat) : ledsKey i ≠ "audioMode" := by
  intro h
  have hd : (ledsKey i).data = ("audioMode" : String).data := by rw [h]
  simp only [ledsKey, String.data_append] at hd
  have h1 : (("leds_" : String).data ++ (toString i).data).head? = some 'l' := rfl
  rw [hd] at h1
  revert h1
  decide

/-! ## Persistence: save, then load -/

/-- A loop that stores one value per index: cell `k < n` holds its value, the others are
left alone. -/
theorem forUpTo_setAt (g : Nat → Nat) (n : Nat) (a : Nat → Nat) :
    forUpTo n (fun i a => setAt a i (g i)) a = fun k => if k < n then g k else a k := by
  induction n with
  | zero => funext k; simp [forUpTo]
  | succ n ih =>
    funext k
    simp only [forUpTo, ih, setAt]
    by_cases hk : k = n
    · simp [hk]
    · have : k < n + 1 ↔ k < n := by omega
      simp [hk, this]

/-- The loop of `saveConfig` leaves every key that is not a strip key below the bound. -/
theorem save_loop_other (v : Nat → Nat) (n : Nat) (p : Prefs) (k : String)
    (hk : ∀ i, i < n → k ≠ ledsKey i) :
    forUpTo n (fun i p => putUInt (ledsKey i) (v i) p) p k = p k := by
  induction n with
  | zero => rfl
  | succ n ih =>
    simp only [forUpTo, putUInt]
    rw [if_neg (hk n (Nat.lt_succ_self n))]
    exact ih (fun i hi => hk i (Nat.lt_succ_of_lt hi))

/-- The loop of `saveConfig` stores the count of every strip below the bound. -/
theorem save_loop_strip (v : Nat → Nat) (n : Nat) (p : Prefs) (j : Nat) (hj : j < n) :
    forUpTo n (fun i p => putUInt (ledsKey i) (v i) p) p (ledsKey j)
      = some (PrefVal.uint (v j % 2 ^ 32)) := by
  induction n with
  | zero => omega
  | succ n ih =>
    simp only [forUpTo, putUInt]
    by_cases h : j = n
    · subst h
      simp
    · have hne : ledsKey j ≠ ledsKey n := fun e => h (ledsKey_injective j n e)
      rw [if_neg hne]
      exact ih (by omega)

/-- What `loadConfig` reads back from a store that `saveConfig` has just written. -/
theorem load_after_save (st mem : State) (hp : mem.prefs = (saveConfig st).prefs) :
    getUInt "stripCount" 1 mem.prefs = st.stripCount % 2 ^ 32
    ∧ (∀ i, i < st.stripCount → getUInt (ledsKey i) 30 mem.prefs = st.ledsPerStrip i % 2 ^ 32)
    ∧ getString "audioMode" "fft" mem.prefs = st.audioMode := by
  rw [hp]
  refine ⟨?_, ?_, ?_⟩
  · have h1 : ("stripCount" : String) ≠ "audioMode" := by decide
    simp only [getUInt, saveConfig, putString, if_neg h1]
    rw [save_loop_other _ _ _ _ (fun i _ => (ledsKey_ne_stripCount i).symm)]
    simp [putUInt]
  · intro i hi
    simp only [getUInt, saveConfig, putString, if_neg (ledsKey_ne_audioMode i)]
    rw [save_loop_strip _ _ _ _ hi]
  · simp [getString, saveConfig, putString]

/-- C8: `saveConfig` followed by `loadConfig` against the same store reproduces the
configuration: the strip count, the LED count of every strip, and the audio mode.  The
load may run in the same session (`mem` is the state after saving) or after a reboot
(`mem` holds the initial globals); the entries of `ledsPerStrip` from the strip count on
are not part of the stored configuration and keep the value they have in `mem`. -/
theorem config_round_trip (st mem : State)
    (hsc : st.stripCount < 2 ^ 8)
    (hl : ∀ i, i < st.stripCount → st.ledsPerStrip i < 2 ^ 16)
    (hp : mem.prefs = (saveConfig st).prefs) :
    (loadConfig mem).stripCount = st.stripCount
    ∧ (∀ i, i < st.stripCount → (loadConfig mem).ledsPerStrip i = st.ledsPerStrip i)
    ∧ (loadConfig mem).audioMode = st.audioMode
    ∧ (∀ i, st.stripCount ≤ i → (loadConfig mem).ledsPerStrip i = mem.ledsPerStrip i)
    ∧ (mem.ledsPerStrip = st.ledsPerStrip → (loadConfig mem).ledsPerStrip = st.ledsPerStrip) := by
  obtain ⟨h1, h2, h3⟩ := load_after_save st mem hp
  have hn : getUInt "stripCount" 1 mem.prefs % 2 ^ 8 = st.stripCount := by
    rw [h1]
    omega
  have hleds : (loadConfig mem).ledsPerStrip
      = fun k => if k < st.stripCount then getUInt (ledsKey k) 30 mem.prefs % 2 ^ 16
                 else mem.ledsPerStrip k := by
    simp only [loadConfig, hn]
    exact forUpTo_setAt _ _ _
  have hcell : ∀ i, i < st.stripCount → (loadConfig mem).ledsPerStrip i = st.ledsPerStrip i := by
    intro i hi
    rw [hleds]
    simp only [if_pos hi, h2 i hi]
    have := hl i hi
    omega
  have hrest : ∀ i, st.stripCount ≤ i → (loadConfig mem).ledsPerStrip i = mem.ledsPerStrip i := by
    intro i hi
    rw [hleds]
    simp only [if_neg (not_lt.mpr hi)]
  refine ⟨hn, hcell, h3, hrest, ?_⟩
  intro hsame
  funext i
  by_cases hi : i < st.stripCount
  · exact hcell i hi
  · rw [hrest i (not_lt.mp hi), hsame]

/-- C8 for two strips of 30 LEDs in beat mode: saved, then loaded into the globals of a
fresh boot. -/
theorem config_round_trip_witness :
    (loadConfig (initState (saveConfig twoStripBeatState).prefs)).stripCount
      = twoStripBeatState.stripCount
    ∧ (∀ i, i < twoStripBeatState.stripCount →
        (loadConfig (initState (saveConfig twoStripBeatState).prefs)).ledsPerStrip i
          = twoStripBeatState.ledsPerStrip i)
    ∧ (loadConfig (initState (saveConfig twoStripBeatState).prefs)).audioMode
        = twoStripBeatState.audioMode
    ∧ (∀ i, twoStripBeatState.stripCount ≤ i →
        (loadConfig (initState (saveConfig twoStripBeatState).prefs)).ledsPerStrip i
          = (initState (saveConfig twoStripBeatState).prefs).ledsPerStrip i)
    ∧ ((initState (saveConfig twoStripBeatState).prefs).ledsPerStrip
          = twoStripBeatState.ledsPerStrip →
        (loadConfig (initState (saveConfig twoStripBeatState).prefs)).ledsPerStrip
          = twoStripBeatState.ledsPerStrip) :=
  config_round_trip twoStripBeatState (initState (saveConfig twoStripBeatState).prefs)
    (by decide) (fun i _ => by show (30 : Nat) < 2 ^ 16; norm_num) rfl

/-! ## Analyzers: what they leave alone, what they write -/

/-- The spectral analyzer leaves the topology alone. -/
theorem processFFT_topology (level : (Nat → Int) → Int → Int) (st : State) :
    (processFFT level st).stripCount = st.stripCount
    ∧ (processFFT level st).ledsPerStrip = st.ledsPerStrip := by
  unfold processFFT
  split <;> exact ⟨rfl, rfl⟩

/-- The beat detector leaves the topology alone. -/
theorem processBeat_topology (rnd : Nat → Nat) (now1 now2 : Nat) (st : State) :
    (processBeat rnd now1 now2 st).stripCount = st.stripCount
    ∧ (processBeat rnd now1 now2 st).ledsPerStrip = st.ledsPerStrip := by
  unfold processBeat
  split
  · exact ⟨rfl, rfl⟩
  · simp only
    split <;> exact ⟨rfl, rfl⟩

/-- The LED cells after a spectral pass on a ready chunk: cell `[k][l]` with
`k < stripCount` and `l < ledsPerStrip[k]` holds `CHSV(level, 255, level)` for the bin of
`l`, and every other cell is left alone. -/
theorem processFFT_leds (level : (Nat → Int) → Int → Int) (st : State)
    (hready : st.newAudioData = true) (k l : Nat) :
    (processFFT level st).leds k l
      = if k < st.stripCount ∧ l < st.ledsPerStrip k then
          Color.hsv
            (constrain (level (prepareFFT st).vReal (binOf (st.ledsPerStrip k) l)) 0 255).toNat 255
            (constrain (level (prepareFFT st).vReal (binOf (st.ledsPerStrip k) l)) 0 255).toNat
        else st.leds k l := by
  simp only [processFFT, hready, Bool.not_true, Bool.false_eq_true, if_false]
  have h := paint_all (fun i j _ => Color.hsv
      (constrain (level (prepareFFT st).vReal (binOf (st.ledsPerStrip i) j)) 0 255).toNat 255
      (constrain (level (prepareFFT st).vReal (binOf (st.ledsPerStrip i) j)) 0 255).toNat)
    st.ledsPerStrip st.stripCount st.leds
  exact congrFun (congrFun h k) l

/-! ## The topology bounds -/

/-- The increment step keeps a count within `[10, 150]`. -/
theorem ledStep_range (c : Nat) (hc : c ≤ 150) : 10 ≤ ledStep c ∧ ledStep c ≤ 150 :=
  (ledStep_cases c).2 hc

/-- The new strip count after a tap on the strip-count screen never exceeds 4. -/
theorem stripCount_step_le (s0 : Nat) :
    (constrain ((s0 : Int) + 1) 1 MAX_STRIPS).toNat % 2 ^ 8 ≤ MAX_STRIPS := by
  unfold constrain MAX_STRIPS
  split_ifs <;> omega

/-- Touch handling keeps the topology bounds. -/
theorem handleTouch_topologyOk (p : TSPoint) (st : State) (h : TopologyOk st) :
    TopologyOk (handleTouch p st) := by
  unfold handleTouch
  split
  · cases hs : st.currentScreen <;> simp only
    · exact h
    · split_ifs <;> exact h
    · exact ⟨by split_ifs <;> exact h.1, by split_ifs <;> exact h.2⟩
    · exact ⟨stripCount_step_le st.stripCount, h.2⟩
    · have hcell : ∀ i, i < MAX_STRIPS →
          10 ≤ setAt st.ledsPerStrip st.currentStripIndex
                  (ledStep (st.ledsPerStrip st.currentStripIndex)) i
          ∧ setAt st.ledsPerStrip st.currentStripIndex
                  (ledStep (st.ledsPerStrip st.currentStripIndex)) i ≤ MAX_LEDS := by
        intro i hi
        unfold setAt
        split
        · rename_i e
          have := (h.2 i hi).2
          rw [e] at this
          exact ledStep_range _ this
        · exact h.2 i hi
      split_ifs
      · exact ⟨h.1, hcell⟩
      · exact ⟨h.1, hcell⟩
    · exact h
  · exact h

/-- Every event keeps the topology bounds. -/
theorem step_topologyOk (level : (Nat → Int) → Int → Int) (rnd : Nat → Nat) (st : State)
    (e : Event) (h : TopologyOk st) : TopologyOk (step level rnd st e) := by
  have hrender : ∀ (s : State) (a b : Nat), TopologyOk s → TopologyOk (render level rnd a b s) := by
    intro s a b hs
    unfold render
    split_ifs
    · unfold TopologyOk
      rw [(processFFT_topology level s).1, (processFFT_topology level s).2]
      exact hs
    · unfold TopologyOk
      rw [(processBeat_topology rnd a b s).1, (processBeat_topology rnd a b s).2]
      exact hs
    · exact hs
    · exact hs
  cases e with
  | tick t =>
    apply hrender
    apply handleTouch_topologyOk
    unfold splashStep
    split_ifs
    · exact h
    · exact h
  | touch p => exact handleTouch_topologyOk p st h
  | render a b => exact hrender st a b h
  | audio data len => exact h

/-- With a store whose contents respect the bounds, every state reachable from boot
respects them: the strip count is at most `MAX_STRIPS` and every LED count lies in
`[10, MAX_LEDS]`. -/
theorem topology_invariant (level : (Nat → Int) → Int → Int) (rnd : Nat → Nat)
    (store : Prefs) (now : Nat) (hstore : StoreOk store) (es : List Event) :
    TopologyOk (run level rnd (setup store now) es) := by
  have hboot : TopologyOk (setup store now) := by
    have hn : getUInt "stripCount" 1 store % 2 ^ 8 ≤ MAX_STRIPS :=
      le_trans (Nat.mod_le _ _) hstore.1
    refine ⟨hn, ?_⟩
    intro i hi
    have hl : (setup store now).ledsPerStrip
        = fun k => if k < getUInt "stripCount" 1 store % 2 ^ 8
                   then getUInt (ledsKey k) 30 store % 2 ^ 16 else 30 :=
      forUpTo_setAt _ _ _
    rw [hl]
    simp only
    split
    · have h := hstore.2 i hi
      have hm : getUInt (ledsKey i) 30 store % 2 ^ 16 = getUInt (ledsKey i) 30 store :=
        Nat.mod_eq_of_lt (by unfold MAX_LEDS at h; omega)
      rw [hm]
      exact h
    · unfold MAX_LEDS
      omega
  unfold run
  generalize setup store now = st at hboot
  induction es generalizing st with
  | nil => exact hboot
  | cons e es ih => exact ih _ (step_topologyOk level rnd st e hboot)

/-! ## The topology bounds: what `loadConfig` lets through -/

/-- C9, at a store holding a strip count of 7: after boot the strip count is 7, above
`MAX_STRIPS = 4`, and it is still 7 once the visualizer runs its first render pass. -/
theorem stripCount_unchecked_on_load :
    (setup sevenStripStore 0).stripCount = 7
    ∧ MAX_STRIPS < (setup sevenStripStore 0).stripCount
    ∧ (run (fun _ _ => 0) (fun _ => 0) (setup sevenStripStore 0) toFirstRender).currentScreen
        = ScreenID.VISUALIZER
    ∧ (run (fun _ _ => 0) (fun _ => 0) (setup sevenStripStore 0) toFirstRender).stripCount = 7 :=
  ⟨rfl, by decide, rfl, rfl⟩

/-- C10, at a store holding 500 LEDs for strip 0: after boot `ledsPerStrip[0]` is 500,
above `MAX_LEDS = 150`; the first spectral render pass then runs with that count and
writes `leds[0][150]` and `leds[0][499]`, cells beyond the 150 cells of the strip. -/
theorem ledCount_unchecked_on_load :
    (setup longStripStore 0).stripCount = 1
    ∧ (setup longStripStore 0).ledsPerStrip 0 = 500
    ∧ MAX_LEDS < (setup longStripStore 0).ledsPerStrip 0
    ∧ (run (fun _ _ => 0) (fun _ => 0) (setup longStripStore 0) toFirstRender).currentScreen
        = ScreenID.VISUALIZER
    ∧ (run (fun _ _ => 0) (fun _ => 0) (setup longStripStore 0) toFirstRender).ledsPerStrip 0 = 500
    ∧ (setup longStripStore 0).leds 0 150 = Color.rgb 0 0 0
    ∧ (run (fun _ _ => 0) (fun _ => 0) (setup longStripStore 0) toFirstRender).leds 0 150
        = Color.hsv 0 255 0
    ∧ (run (fun _ _ => 0) (fun _ => 0) (setup longStripStore 0) toFirstRender).leds 0 499
        = Color.hsv 0 255 0 := by
  have hrun : run (fun _ _ => 0) (fun _ => 0) (setup longStripStore 0) toFirstRender
      = processFFT (fun _ _ => 0) (read_data_stream (fun _ => 129) 4
          (handleTouch tapRow160 (loop (fun _ _ => 0) (fun _ => 0) idleTick
            (setup longStripStore 0)))) := rfl
  have hready : (read_data_stream (fun _ => 129) 4
      (handleTouch tapRow160 (loop (fun _ _ => 0) (fun _ => 0) idleTick
        (setup longStripStore 0)))).newAudioData = true := rfl
  have hsc : (read_data_stream (fun _ => 129) 4
      (handleTouch tapRow160 (loop (fun _ _ => 0) (fun _ => 0) idleTick
        (setup longStripStore 0)))).stripCount = 1 := rfl
  have hl : (read_data_stream (fun _ => 129) 4
      (handleTouch tapRow160 (loop (fun _ _ => 0) (fun _ => 0) idleTick
        (setup longStripStore 0)))).ledsPerStrip 0 = 500 := rfl
  have hlv : (constrain 0 0 255).toNat = 0 := by decide
  refine ⟨rfl, rfl, by decide, rfl, rfl, rfl, ?_, ?_⟩
  · rw [hrun, processFFT_leds _ _ hready, hsc, hl, if_pos (by decide), hlv]
  · rw [hrun, processFFT_leds _ _ hready, hsc, hl, if_pos (by decide), hlv]

/-! ## Touch handling: the transition table -/

/-- The pressure test, spelled out. -/
theorem validTouch_iff (p : TSPoint) : validTouch p = true ↔ 200 < p.z ∧ p.z < 1000 := by
  simp [validTouch, MINPRESSURE, MAXPRESSURE]

/-- C13: a touch sample whose pressure `z` does not satisfy `200 < z < 1000` leaves the
whole controller state unchanged, whatever the raw coordinates and the screen are; in
particular the screen, the flow index, the strip count, the LED counts and the audio mode
are unchanged and `saveConfig` is not called. -/
theorem pressure_window (p : TSPoint) (st : State) (hz : ¬ (200 < p.z ∧ p.z < 1000)) :
    handleTouch p st = st
    ∧ uiConfig (handleTouch p st) = uiConfig st
    ∧ (handleTouch p st).saveCalls = st.saveCalls := by
  have hv : validTouch p = false := by
    cases h : validTouch p
    · rfl
    · exact absurd ((validTouch_iff p).mp h) hz
  have e : handleTouch p st = st := by simp [handleTouch, hv]
  rw [e]
  exact ⟨rfl, rfl, rfl⟩

/-- C13 with no finger on the panel (pressure 0), on the main menu. -/
theorem pressure_window_witness :
    handleTouch noTouch mainMenuState = mainMenuState
    ∧ uiConfig (handleTouch noTouch mainMenuState) = uiConfig mainMenuState
    ∧ (handleTouch noTouch mainMenuState).saveCalls = mainMenuState.saveCalls :=
  pressure_window noTouch mainMenuState (by decide)

/-- C14: on the main menu a valid touch is classified by its mapped row
`y = map(p.x, 120, 920, 0, 320) = (p.x - 120) * 320 / 800` (C division): the next screen
is the audio-mode screen for `50 ≤ y < 80`, the strip-count screen for `100 ≤ y < 130`,
the visualizer for `150 ≤ y < 180`, and the main menu again for every other row; nothing
but the screen changes, so the topology, the audio mode and the store are as before and
`saveConfig` is not called. -/
theorem main_menu_transition (p : TSPoint) (st : State) (hv : validTouch p = true)
    (hs : st.currentScreen = ScreenID.MAIN_MENU) :
    touchY p = ((p.x - 120) * 320).tdiv 800
    ∧ handleTouch p st
        = { st with currentScreen :=
              if 50 ≤ touchY p ∧ touchY p < 80 then ScreenID.AUDIO_MODE
              else if 100 ≤ touchY p ∧ touchY p < 130 then ScreenID.LED_CONFIG_STRIPS
              else if 150 ≤ touchY p ∧ touchY p < 180 then ScreenID.VISUALIZER
              else ScreenID.MAIN_MENU }
    ∧ (handleTouch p st).stripCount = st.stripCount
    ∧ (handleTouch p st).ledsPerStrip = st.ledsPerStrip
    ∧ (handleTouch p st).audioMode = st.audioMode
    ∧ (handleTouch p st).prefs = st.prefs
    ∧ (handleTouch p st).saveCalls = st.saveCalls := by
  have hy : touchY p = ((p.x - 120) * 320).tdiv 800 := by
    simp [touchY, map]
  have e : handleTouch p st
      = { st with currentScreen :=
            if 50 ≤ touchY p ∧ touchY p < 80 then ScreenID.AUDIO_MODE
            else if 100 ≤ touchY p ∧ touchY p < 130 then ScreenID.LED_CONFIG_STRIPS
            else if 150 ≤ touchY p ∧ touchY p < 180 then ScreenID.VISUALIZER
            else ScreenID.MAIN_MENU } := by
    simp only [handleTouch, hv, hs, if_true, ge_iff_le]
    split_ifs
    · rfl
    · rfl
    · rfl
    · cases st
      simp only at hs
      rw [hs]
  refine ⟨hy, e, ?_, ?_, ?_, ?_, ?_⟩ <;> rw [e]

/-- C14 on a first boot with a tap on row 160: the visualizer starts. -/
theorem main_menu_transition_witness :
    touchY tapRow160 = ((tapRow160.x - 120) * 320).tdiv 800
    ∧ handleTouch tapRow160 mainMenuState
        = { mainMenuState with
            currentScreen :=
              if 50 ≤ touchY tapRow160 ∧ touchY tapRow160 < 80 then ScreenID.AUDIO_MODE
              else if 100 ≤ touchY tapRow160 ∧ touchY tapRow160 < 130 then
                ScreenID.LED_CONFIG_STRIPS
              else if 150 ≤ touchY tapRow160 ∧ touchY tapRow160 < 180 then ScreenID.VISUALIZER
              else ScreenID.MAIN_MENU }
    ∧ (handleTouch tapRow160 mainMenuState).stripCount = mainMenuState.stripCount
    ∧ (handleTouch tapRow160 mainMenuState).ledsPerStrip = mainMenuState.ledsPerStrip
    ∧ (handleTouch tapRow160 mainMenuState).audioMode = mainMenuState.audioMode
    ∧ (handleTouch tapRow160 mainMenuState).prefs = mainMenuState.prefs
    ∧ (handleTouch tapRow160 mainMenuState).saveCalls = mainMenuState.saveCalls :=
  main_menu_transition tapRow160 mainMenuState (by decide) rfl

/-- A valid tap on the audio-mode screen: the mode is chosen by the row, then the
configuration is saved and the main menu comes back. -/
theorem handleTouch_audio (p : TSPoint) (st : State) (hv : validTouch p = true)
    (hs : st.currentScreen = ScreenID.AUDIO_MODE) :
    handleTouch p st
      = { saveConfig { st with
            audioMode :=
              if 100 ≤ touchY p ∧ touchY p < 130 then "fft"
              else if 140 ≤ touchY p ∧ touchY p < 170 then "beat"
              else st.audioMode }
          with currentScreen := ScreenID.MAIN_MENU } := by
  simp only [handleTouch, hv, hs, if_true, ge_iff_le]
  split_ifs <;> rfl

/-- C12: on the audio-mode screen a valid touch sets the audio mode to `"fft"` for a
mapped row in `[100, 130)`, to `"beat"` for a row in `[140, 170)`, and leaves it unchanged
for every other row; in all three cases `saveConfig` is called exactly once (and stores
the resulting mode), the screen becomes the main menu, and the strip count and the LED
counts are unchanged. -/
theorem audio_mode_select (p : TSPoint) (st : State) (hv : validTouch p = true)
    (hs : st.currentScreen = ScreenID.AUDIO_MODE) :
    (100 ≤ touchY p ∧ touchY p < 130 → (handleTouch p st).audioMode = "fft")
    ∧ (140 ≤ touchY p ∧ touchY p < 170 → (handleTouch p st).audioMode = "beat")
    ∧ (¬ (100 ≤ touchY p ∧ touchY p < 130) → ¬ (140 ≤ touchY p ∧ touchY p < 170) →
        (handleTouch p st).audioMode = st.audioMode)
    ∧ (handleTouch p st).saveCalls = st.saveCalls + 1
    ∧ getString "audioMode" "fft" (handleTouch p st).prefs = (handleTouch p st).audioMode
    ∧ (handleTouch p st).currentScreen = ScreenID.MAIN_MENU
    ∧ (handleTouch p st).stripCount = st.stripCount
    ∧ (handleTouch p st).ledsPerStrip = st.ledsPerStrip := by
  rw [handleTouch_audio p st hv hs]
  refine ⟨?_, ?_, ?_, rfl, ?_, rfl, rfl, rfl⟩
  · intro h
    show (if 100 ≤ touchY p ∧ touchY p < 130 then "fft"
      else if 140 ≤ touchY p ∧ touchY p < 170 then "beat" else st.audioMode) = "fft"
    rw [if_pos h]
  · intro h
    show (if 100 ≤ touchY p ∧ touchY p < 130 then "fft"
      else if 140 ≤ touchY p ∧ touchY p < 170 then "beat" else st.audioMode) = "beat"
    rw [if_neg (by omega), if_pos h]
  · intro h1 h2
    show (if 100 ≤ touchY p ∧ touchY p < 130 then "fft"
      else if 140 ≤ touchY p ∧ touchY p < 170 then "beat" else st.audioMode) = st.audioMode
    rw [if_neg h1, if_neg h2]
  · simp [saveConfig, getString, putString]

/-- C12 on a first boot with a tap on row 110: the mode is `"fft"`. -/
theorem audio_mode_select_witness :
    (100 ≤ touchY tapRow110 ∧ touchY tapRow110 < 130 →
      (handleTouch tapRow110 audioModeState).audioMode = "fft")
    ∧ (140 ≤ touchY tapRow110 ∧ touchY tapRow110 < 170 →
      (handleTouch tapRow110 audioModeState).audioMode = "beat")
    ∧ (¬ (100 ≤ touchY tapRow110 ∧ touchY tapRow110 < 130) →
       ¬ (140 ≤ touchY tapRow110 ∧ touchY tapRow110 < 170) →
        (handleTouch tapRow110 audioModeState).audioMode = audioModeState.audioMode)
    ∧ (handleTouch tapRow110 audioModeState).saveCalls = audioModeState.saveCalls + 1
    ∧ getString "audioMode" "fft" (handleTouch tapRow110 audioModeState).prefs
        = (handleTouch tapRow110 audioModeState).audioMode
    ∧ (handleTouch tapRow110 audioModeState).currentScreen = ScreenID.MAIN_MENU
    ∧ (handleTouch tapRow110 audioModeState).stripCount = audioModeState.stripCount
    ∧ (handleTouch tapRow110 audioModeState).ledsPerStrip = audioModeState.ledsPerStrip :=
  audio_mode_select tapRow110 audioModeState (by decide) rfl

/-! ## Analyzers and ingest leave the configuration alone -/

/-- The spectral analyzer leaves the configuration part of the state alone. -/
theorem processFFT_uiConfig (level : (Nat → Int) → Int → Int) (st : State) :
    uiConfig (processFFT level st) = uiConfig st := by
  unfold processFFT
  split <;> rfl

/-- The beat detector leaves the configuration part of the state alone. -/
theorem processBeat_uiConfig (rnd : Nat → Nat) (now1 now2 : Nat) (st : State) :
    uiConfig (processBeat rnd now1 now2 st) = uiConfig st := by
  unfold processBeat
  split
  · rfl
  · simp only
    split <;> rfl

/-- A render pass leaves the configuration part of the state alone. -/
theorem render_uiConfig (level : (Nat → Int) → Int → Int) (rnd : Nat → Nat) (now1 now2 : Nat)
    (st : State) : uiConfig (render level rnd now1 now2 st) = uiConfig st := by
  unfold render
  split_ifs
  · exact processFFT_uiConfig level st
  · exact processBeat_uiConfig rnd now1 now2 st
  · rfl
  · rfl

/-- The count of `saveConfig` calls after one touch sample. -/
theorem handleTouch_saveCalls (p : TSPoint) (st : State) :
    (handleTouch p st).saveCalls = st.saveCalls + (if checkpointDue p st then 1 else 0)
    ∧ (checkpointDue p st = false → (handleTouch p st).prefs = st.prefs) := by
  cases hv : validTouch p
  · have hc : checkpointDue p st = false := by simp [checkpointDue, hv]
    rw [hc]
    simp [handleTouch, hv]
  · cases hs : st.currentScreen
    · have hc : checkpointDue p st = false := by simp [checkpointDue, hs]
      rw [hc]
      simp [handleTouch, hv, hs]
    · have hc : checkpointDue p st = false := by simp [checkpointDue, hs]
      rw [hc]
      simp only [handleTouch, hv, hs, if_true, Bool.false_eq_true, if_false, add_zero]
      split_ifs <;> simp
    · have hc : checkpointDue p st = true := by simp [checkpointDue, hv, hs]
      rw [hc]
      simp only [handleTouch, hv, hs, if_true]
      split_ifs <;> simp [saveConfig]
    · have hc : checkpointDue p st = false := by simp [checkpointDue, hs]
      rw [hc]
      simp [handleTouch, hv, hs]
    · by_cases h : st.stripCount ≤ (st.currentStripIndex + 1) % 256
      · have h8 : st.stripCount ≤ (st.currentStripIndex + 1) % 2 ^ 8 := h
        have hc : checkpointDue p st = true := by simp [checkpointDue, hv, hs, h]
        rw [hc]
        simp only [handleTouch, hv, hs, if_true, ge_iff_le, if_pos h8]
        simp [saveConfig]
      · have h8 : ¬ st.stripCount ≤ (st.currentStripIndex + 1) % 2 ^ 8 := h
        have hc : checkpointDue p st = false := by
          simp only [checkpointDue, hs, hv, ge_iff_le, h8, decide_False, Bool.and_false,
            Bool.or_false]
          rfl
        rw [hc]
        simp only [handleTouch, hv, hs, if_true, ge_iff_le, if_neg h8]
        simp
    · have hc : checkpointDue p st = false := by simp [checkpointDue, hs]
      rw [hc]
      simp [handleTouch, hv, hs]

/-- The splash time-out does not move a checkpoint. -/
theorem checkpointDue_splashStep (p : TSPoint) (now : Nat) (st : State) :
    checkpointDue p (splashStep now st) = checkpointDue p st := by
  unfold splashStep
  split
  · rename_i h
    simp [checkpointDue, h.1]
  · rfl

/-- C11: one event calls `saveConfig` at most once, and exactly when the event is a valid
touch and either the screen is the audio-mode screen, or the screen is the per-strip
screen and the flow index after advancing has reached the strip count.  This holds for a
touch sample handled on its own and for a whole pass of `loop`; a render pass never
calls `saveConfig`; without a checkpoint the store is left as it was; and no touch on the
splash screen, the main menu, the strip-count screen or the visualizer calls
`saveConfig`. -/
theorem persistence_checkpoints (level : (Nat → Int) → Int → Int) (rnd : Nat → Nat)
    (p : TSPoint) (now1 now2 : Nat) (t : Tick) (st : State) :
    (handleTouch p st).saveCalls = st.saveCalls + (if checkpointDue p st then 1 else 0)
    ∧ (checkpointDue p st = false → (handleTouch p st).prefs = st.prefs)
    ∧ (render level rnd now1 now2 st).saveCalls = st.saveCalls
    ∧ (render level rnd now1 now2 st).prefs = st.prefs
    ∧ (loop level rnd t st).saveCalls
        = st.saveCalls + (if checkpointDue t.touch st then 1 else 0)
    ∧ (checkpointDue p st = true ↔
        (200 < p.z ∧ p.z < 1000)
        ∧ (st.currentScreen = ScreenID.AUDIO_MODE
           ∨ (st.currentScreen = ScreenID.LED_CONFIG_COUNT
              ∧ st.stripCount ≤ (st.currentStripIndex + 1) % 2 ^ 8)))
    ∧ (st.currentScreen = ScreenID.SPLASH ∨ st.currentScreen = ScreenID.MAIN_MENU
        ∨ st.currentScreen = ScreenID.LED_CONFIG_STRIPS
        ∨ st.currentScreen = ScreenID.VISUALIZER →
        (handleTouch p st).saveCalls = st.saveCalls) := by
  have hr : ∀ s : State, (render level rnd now1 now2 s).saveCalls = s.saveCalls
      ∧ (render level rnd now1 now2 s).prefs = s.prefs := by
    intro s
    have h := render_uiConfig level rnd now1 now2 s
    exact ⟨congrArg UiConfig.saveCalls h, congrArg UiConfig.prefs h⟩
  have hiff : checkpointDue p st = true ↔
      (200 < p.z ∧ p.z < 1000)
      ∧ (st.currentScreen = ScreenID.AUDIO_MODE
         ∨ (st.currentScreen = ScreenID.LED_CONFIG_COUNT
            ∧ st.stripCount ≤ (st.currentStripIndex + 1) % 2 ^ 8)) := by
    simp [checkpointDue, validTouch_iff]
  refine ⟨(handleTouch_saveCalls p st).1, (handleTouch_saveCalls p st).2, (hr st).1, (hr st).2,
    ?_, hiff, ?_⟩
  · have h := render_uiConfig level rnd t.beatNow1 t.beatNow2
      (handleTouch t.touch (splashStep t.now st))
    have h1 : (loop level rnd t st).saveCalls
        = (handleTouch t.touch (splashStep t.now st)).saveCalls :=
      congrArg UiConfig.saveCalls h
    rw [h1, (handleTouch_saveCalls t.touch (splashStep t.now st)).1, checkpointDue_splashStep]
    have h2 : (splashStep t.now st).saveCalls = st.saveCalls := by
      unfold splashStep
      split <;> rfl
    rw [h2]
  · intro hscreen
    have hno : checkpointDue p st = false := by
      cases hc : checkpointDue p st
      · rfl
      · have := (hiff.mp hc).2
        rcases hscreen with h | h | h | h <;> rw [h] at this <;> simp at this
    rw [(handleTouch_saveCalls p st).1, hno]
    rfl

/-! ## Beat detector: the state it keeps -/

/-- C15: after `processBeat` has run on a ready chunk, `lastEnergy` is the energy of that
chunk and the ready flag is cleared, whether the beat fired or not and whatever the clock
readings are.  For a chunk of non-zero length (at most 1024 bytes) that energy is the
mean of the squared centred samples, rounded to `float`. -/
theorem beat_state_update (rnd : Nat → Nat) (now1 now2 : Nat) (st : State)
    (hready : st.newAudioData = true) :
    (processBeat rnd now1 now2 st).lastEnergy = chunkEnergy st.audioBuffer st.audioBufferLen
    ∧ (processBeat rnd now1 now2 st).newAudioData = false
    ∧ (st.audioBufferLen ≠ 0 → st.audioBufferLen ≤ 1024 →
        (∀ i, i < st.audioBufferLen → st.audioBuffer i < 256) →
        (processBeat rnd now1 now2 st).lastEnergy
          = roundF32 (meanSquare st.audioBuffer st.audioBufferLen)) := by
  have h : (processBeat rnd now1 now2 st).lastEnergy
        = chunkEnergy st.audioBuffer st.audioBufferLen
      ∧ (processBeat rnd now1 now2 st).newAudioData = false := by
    cases hf : beatFires now1 st
    · rw [processBeat_of_not_fires rnd now1 now2 st hready hf]
      exact ⟨rfl, rfl⟩
    · rw [processBeat_of_fires rnd now1 now2 st hready hf]
      exact ⟨rfl, rfl⟩
  refine ⟨h.1, h.2, ?_⟩
  intro h0 hn hb
  rw [h.1, chunkEnergy_exact _ _ hn hb, if_neg h0]

/-- C15 at the one-byte chunk `129` on a freshly booted controller. -/
theorem beat_state_update_witness :
    (processBeat (fun _ => 7) 1000 1001 warmupState).lastEnergy
      = chunkEnergy warmupState.audioBuffer warmupState.audioBufferLen
    ∧ (processBeat (fun _ => 7) 1000 1001 warmupState).newAudioData = false
    ∧ (warmupState.audioBufferLen ≠ 0 → warmupState.audioBufferLen ≤ 1024 →
        (∀ i, i < warmupState.audioBufferLen → warmupState.audioBuffer i < 256) →
        (processBeat (fun _ => 7) 1000 1001 warmupState).lastEnergy
          = roundF32 (meanSquare warmupState.audioBuffer warmupState.audioBufferLen)) :=
  beat_state_update (fun _ => 7) 1000 1001 warmupState rfl

/-! ## Render dispatch -/

/-- An analyzer called without a ready chunk returns at once. -/
theorem analyzers_idle (level : (Nat → Int) → Int → Int) (rnd : Nat → Nat) (now1 now2 : Nat)
    (st : State) (h : st.newAudioData = false) :
    processFFT level st = st ∧ processBeat rnd now1 now2 st = st := by
  simp [processFFT, processBeat, h]

/-- C16: the render part of a pass of `loop` runs the spectral analyzer exactly when the
screen is the visualizer, a chunk is ready and the mode is `"fft"`, runs the beat
detector exactly when the screen is the visualizer, a chunk is ready and the mode is
`"beat"`, and in every other case leaves the whole state as it was (so the chunk, its
length, the ready flag, the LED buffer, `lastEnergy` and `lastBeatTime` are unchanged).
When an analyzer runs, the ready flag is false afterwards. -/
theorem render_dispatch (level : (Nat → Int) → Int → Int) (rnd : Nat → Nat) (now1 now2 : Nat)
    (st : State) :
    (st.currentScreen = ScreenID.VISUALIZER → st.newAudioData = true → st.audioMode = "fft" →
      render level rnd now1 now2 st = processFFT level st
      ∧ (render level rnd now1 now2 st).newAudioData = false)
    ∧ (st.currentScreen = ScreenID.VISUALIZER → st.newAudioData = true →
        st.audioMode = "beat" →
      render level rnd now1 now2 st = processBeat rnd now1 now2 st
      ∧ (render level rnd now1 now2 st).newAudioData = false)
    ∧ (¬ (st.currentScreen = ScreenID.VISUALIZER ∧ st.newAudioData = true
          ∧ (st.audioMode = "fft" ∨ st.audioMode = "beat")) →
      render level rnd now1 now2 st = st) := by
  refine ⟨?_, ?_, ?_⟩
  · intro hs hr hm
    have e : render level rnd now1 now2 st = processFFT level st := by
      simp [render, hs, hm]
    rw [e]
    refine ⟨rfl, ?_⟩
    simp [processFFT, hr]
  · intro hs hr hm
    have e : render level rnd now1 now2 st = processBeat rnd now1 now2 st := by
      simp [render, hs, hm]
    rw [e]
    refine ⟨rfl, ?_⟩
    cases hf : beatFires now1 st
    · rw [processBeat_of_not_fires rnd now1 now2 st hr hf]
    · rw [processBeat_of_fires rnd now1 now2 st hr hf]
  · intro hno
    unfold render
    split_ifs with hs hm hm2
    · have hr : st.newAudioData = false := by
        cases h : st.newAudioData
        · rfl
        · exact absurd ⟨hs, h, Or.inl hm⟩ hno
      exact (analyzers_idle level rnd now1 now2 st hr).1
    · have hr : st.newAudioData = false := by
        cases h : st.newAudioData
        · rfl
        · exact absurd ⟨hs, h, Or.inr hm2⟩ hno
      exact (analyzers_idle level rnd now1 now2 st hr).2
    · rfl
    · rfl

/-! ## Spectral analyzer: the prepared input -/

/-- The first loop of `processFFT` in closed form: the cells below the bound get their
value, the others are left alone. -/
theorem prepare_loop (g : Nat → Int) (n : Nat) (v : (Nat → Int) × (Nat → Int)) :
    forUpTo n (fun i (v : (Nat → Int) × (Nat → Int)) => (setAt v.1 i (g i), setAt v.2 i 0)) v
      = (fun k => if k < n then g k else v.1 k, fun k => if k < n then 0 else v.2 k) := by
  induction n with
  | zero => simp [forUpTo]
  | succ n ih =>
    simp only [forUpTo, ih]
    refine Prod.ext ?_ ?_
    · funext k
      simp only [setAt]
      by_cases hk : k = n
      · simp [hk]
      · have : k < n + 1 ↔ k < n := by omega
        simp [hk, this]
    · funext k
      simp only [setAt]
      by_cases hk : k = n
      · simp [hk]
      · have : k < n + 1 ↔ k < n := by omega
        simp [hk, this]

/-- C18: before windowing, for every sample index `i < 512`, the real input `vReal[i]`
is `audioBuffer[2 * i] - 128` when `2 * i` is below the stored length and 0 otherwise (a
shorter chunk is zero-padded), and the imaginary input `vImag[i]` is 0.  No byte at an
index from the stored length on is read: two states with the same stored length and the
same bytes below it prepare the same input. -/
theorem spectral_input (st : State) (i : Nat) (hi : i < SAMPLES) :
    (prepareFFT st).vReal i
      = (if 2 * i < st.audioBufferLen then (st.audioBuffer (2 * i) : Int) - 128 else 0)
    ∧ (prepareFFT st).vImag i = 0
    ∧ (∀ st2 : State, st2.audioBufferLen = st.audioBufferLen →
        (∀ k, k < st.audioBufferLen → st2.audioBuffer k = st.audioBuffer k) →
        (prepareFFT st2).vReal i = (prepareFFT st).vReal i) := by
  have hclosed : ∀ s : State, (prepareFFT s).vReal i
        = (if i * 2 < s.audioBufferLen then (s.audioBuffer (i * 2) : Int) - 128 else 0)
      ∧ (prepareFFT s).vImag i = 0 := by
    intro s
    simp only [prepareFFT]
    rw [prepare_loop (fun i =>
      if i * 2 < s.audioBufferLen then (s.audioBuffer (i * 2) : Int) - 128 else 0)]
    simp only [if_pos hi]
    exact ⟨trivial, trivial⟩
  refine ⟨?_, (hclosed st).2, ?_⟩
  · rw [(hclosed st).1, Nat.mul_comm]
  · intro st2 hlen hbuf
    rw [(hclosed st2).1, (hclosed st).1, hlen]
    split
    · rename_i h
      rw [hbuf _ h]
    · rfl

/-- C18 at the four-byte chunk `129` and sample index 3, beyond the chunk: zero. -/
theorem spectral_input_witness :
    (prepareFFT visualizerState).vReal 3
      = (if 2 * 3 < visualizerState.audioBufferLen
         then (visualizerState.audioBuffer (2 * 3) : Int) - 128 else 0)
    ∧ (prepareFFT visualizerState).vImag 3 = 0
    ∧ (∀ st2 : State, st2.audioBufferLen = visualizerState.audioBufferLen →
        (∀ k, k < visualizerState.audioBufferLen →
          st2.audioBuffer k = visualizerState.audioBuffer k) →
        (prepareFFT st2).vReal 3 = (prepareFFT visualizerState).vReal 3) :=
  spectral_input visualizerState 3 (by decide)

/-! ## The visualizer has no exit -/

/-- Chunk delivery leaves the configuration part of the state alone. -/
theorem read_data_stream_uiConfig (data : Nat → Nat) (len : Nat) (st : State) :
    uiConfig (read_data_stream data len st) = uiConfig st :=
  rfl

/-- On the visualizer a touch sample changes nothing. -/
theorem handleTouch_visualizer (p : TSPoint) (st : State)
    (hs : st.currentScreen = ScreenID.VISUALIZER) : handleTouch p st = st := by
  unfold handleTouch
  split
  · simp [hs]
  · rfl

/-- Off the splash screen the splash time-out changes nothing. -/
theorem splashStep_off_splash (now : Nat) (st : State)
    (hs : st.currentScreen ≠ ScreenID.SPLASH) : splashStep now st = st := by
  unfold splashStep
  rw [if_neg (fun h => hs h.1)]

/-- On the visualizer every event leaves the configuration part of the state alone. -/
theorem step_visualizer (level : (Nat → Int) → Int → Int) (rnd : Nat → Nat) (st : State)
    (e : Event) (hs : st.currentScreen = ScreenID.VISUALIZER) :
    uiConfig (step level rnd st e) = uiConfig st := by
  have hns : st.currentScreen ≠ ScreenID.SPLASH := by
    rw [hs]
    decide
  cases e with
  | tick t =>
    show uiConfig (render level rnd t.beatNow1 t.beatNow2
      (handleTouch t.touch (splashStep t.now st))) = uiConfig st
    rw [splashStep_off_splash t.now st hns, handleTouch_visualizer t.touch st hs]
    exact render_uiConfig level rnd _ _ st
  | touch p =>
    show uiConfig (handleTouch p st) = uiConfig st
    rw [handleTouch_visualizer p st hs]
  | render a b => exact render_uiConfig level rnd a b st
  | audio data len => rfl

/-- C17: from a state on the visualizer, after every sequence of events (touch samples,
passes of `loop`, render passes, delivered chunks) the screen is still the visualizer,
and the flow index, the strip count, the LED counts, the audio mode and the store are
unchanged and `saveConfig` has not been called. -/
theorem visualizer_no_exit (level : (Nat → Int) → Int → Int) (rnd : Nat → Nat) (st : State)
    (es : List Event) (hs : st.currentScreen = ScreenID.VISUALIZER) :
    (run level rnd st es).currentScreen = ScreenID.VISUALIZER
    ∧ (run level rnd st es).stripCount = st.stripCount
    ∧ (run level rnd st es).ledsPerStrip = st.ledsPerStrip
    ∧ (run level rnd st es).audioMode = st.audioMode
    ∧ (run level rnd st es).currentStripIndex = st.currentStripIndex
    ∧ (run level rnd st es).saveCalls = st.saveCalls
    ∧ (run level rnd st es).prefs = st.prefs := by
  have h : uiConfig (run level rnd st es) = uiConfig st := by
    unfold run
    induction es generalizing st with
    | nil => rfl
    | cons e es ih =>
      have h1 := step_visualizer level rnd st e hs
      have hs1 : (step level rnd st e).currentScreen = ScreenID.VISUALIZER := by
        have := congrArg UiConfig.currentScreen h1
        exact this.trans hs
      exact (ih (step level rnd st e) hs1).trans h1
  exact ⟨(congrArg UiConfig.currentScreen h).trans hs, congrArg UiConfig.stripCount h,
    congrArg UiConfig.ledsPerStrip h, congrArg UiConfig.audioMode h,
    congrArg UiConfig.currentStripIndex h, congrArg UiConfig.saveCalls h,
    congrArg UiConfig.prefs h⟩

/-- C17 on a first boot: taps on all three menu rows, a pass of `loop`, a chunk and a
render pass leave the visualizer where it is. -/
theorem visualizer_no_exit_witness :
    (run (fun _ _ => 0) (fun _ => 7) visualizerState visualizerEvents).currentScreen
      = ScreenID.VISUALIZER
    ∧ (run (fun _ _ => 0) (fun _ => 7) visualizerState visualizerEvents).stripCount
      = visualizerState.stripCount
    ∧ (run (fun _ _ => 0) (fun _ => 7) visualizerState visualizerEvents).ledsPerStrip
      = visualizerState.ledsPerStrip
    ∧ (run (fun _ _ => 0) (fun _ => 7) visualizerState visualizerEvents).audioMode
      = visualizerState.audioMode
    ∧ (run (fun _ _ => 0) (fun _ => 7) visualizerState visualizerEvents).currentStripIndex
      = visualizerState.currentStripIndex
    ∧ (run (fun _ _ => 0) (fun _ => 7) visualizerState visualizerEvents).saveCalls
      = visualizerState.saveCalls
    ∧ (run (fun _ _ => 0) (fun _ => 7) visualizerState visualizerEvents).prefs
      = visualizerState.prefs :=
  visualizer_no_exit (fun _ _ => 0) (fun _ => 7) visualizerState visualizerEvents rfl

/-! ## The flow index stays inside the array -/

/-- Touch handling keeps the safety condition of the per-strip screen. -/
theorem handleTouch_flowIndexOk (p : TSPoint) (st : State) (h : FlowIndexOk st) :
    FlowIndexOk (handleTouch p st) := by
  cases hv : validTouch p
  · rw [handleTouch_invalid p st hv]
    exact h
  · cases hs : st.currentScreen
    · have e : handleTouch p st = st := by simp [handleTouch, hv, hs]
      rw [e]
      exact h
    · intro hc
      exfalso
      revert hc
      simp only [handleTouch, hv, hs, if_true]
      split_ifs <;> simp [hs]
    · rw [handleTouch_audio p st hv hs]
      intro hc
      change ScreenID.MAIN_MENU = ScreenID.LED_CONFIG_COUNT at hc
      cases hc
    · rw [handleTouch_strips p st hv hs]
      intro _
      have hle := stripCount_step_le st.stripCount
      have hge : 1 ≤ (constrain ((st.stripCount : Int) + 1) 1 MAX_STRIPS).toNat % 2 ^ 8 := by
        unfold constrain MAX_STRIPS
        split_ifs <;> omega
      exact ⟨hge, hle, hge⟩
    · obtain ⟨h1, h4, hi⟩ := h hs
      unfold MAX_STRIPS at h4
      by_cases hlast : st.stripCount ≤ st.currentStripIndex + 1
      · rw [handleTouch_count_last p st hv hs hlast (by omega)]
        intro hc
        change ScreenID.MAIN_MENU = ScreenID.LED_CONFIG_COUNT at hc
        cases hc
      · rw [handleTouch_count_more p st hv hs (by omega) (by omega)]
        intro _
        exact ⟨h1, h4, by show st.currentStripIndex + 1 < st.stripCount; omega⟩
    · rw [handleTouch_visualizer p st hs]
      exact h

/-- Every event keeps the safety condition of the per-strip screen. -/
theorem step_flowIndexOk (level : (Nat → Int) → Int → Int) (rnd : Nat → Nat) (st : State)
    (e : Event) (h : FlowIndexOk st) : FlowIndexOk (step level rnd st e) := by
  have hcfg : ∀ s s2 : State, uiConfig s2 = uiConfig s → FlowIndexOk s → FlowIndexOk s2 := by
    intro s s2 he hs hc
    have e1 := congrArg UiConfig.currentScreen he
    have e2 := congrArg UiConfig.stripCount he
    have e3 := congrArg UiConfig.currentStripIndex he
    simp only [uiConfig] at e1 e2 e3
    rw [e2, e3]
    exact hs (e1 ▸ hc)
  have hsplash : ∀ now, FlowIndexOk (splashStep now st) := by
    intro now
    unfold splashStep
    split
    · intro hc
      change ScreenID.MAIN_MENU = ScreenID.LED_CONFIG_COUNT at hc
      cases hc
    · exact h
  cases e with
  | tick t =>
    exact hcfg _ _ (render_uiConfig level rnd _ _ _)
      (handleTouch_flowIndexOk t.touch _ (hsplash t.now))
  | touch p => exact handleTouch_flowIndexOk p st h
  | render a b => exact hcfg _ _ (render_uiConfig level rnd a b st) h
  | audio data len => exact h

/-- Every sequence of events keeps the safety condition of the per-strip screen. -/
theorem run_flowIndexOk (level : (Nat → Int) → Int → Int) (rnd : Nat → Nat)
    (es : List Event) : ∀ st : State, FlowIndexOk st → FlowIndexOk (run level rnd st es) := by
  induction es with
  | nil => exact fun _ h => h
  | cons e es ih => exact fun st h => ih _ (step_flowIndexOk level rnd st e h)

/-! ## The strip count never goes down under touch input -/

/-- The strip count after one touch sample: it changes on a valid tap on the strip-count
screen only. -/
theorem handleTouch_stripCount (p : TSPoint) (st : State) :
    (handleTouch p st).stripCount
      = if validTouch p = true ∧ st.currentScreen = ScreenID.LED_CONFIG_STRIPS
        then (constrain ((st.stripCount : Int) + 1) 1 MAX_STRIPS).toNat % 2 ^ 8
        else st.stripCount := by
  by_cases hc : validTouch p = true ∧ st.currentScreen = ScreenID.LED_CONFIG_STRIPS
  · rw [if_pos hc, handleTouch_strips p st hc.1 hc.2]
  · rw [if_neg hc]
    cases hv : validTouch p
    · rw [handleTouch_invalid p st hv]
    · cases hs : st.currentScreen
      · simp [handleTouch, hv, hs]
      · simp only [handleTouch, hv, hs, if_true]
        split_ifs <;> rfl
      · rw [handleTouch_audio p st hv hs]
        rfl
      · exact absurd ⟨hv, hs⟩ hc
      · simp only [handleTouch, hv, hs, if_true]
        split_ifs <;> rfl
      · rw [handleTouch_visualizer p st hs]

/-- From a strip count in `[1, 4]` one touch sample leaves a strip count in `[1, 4]` that
is not smaller. -/
theorem handleTouch_stripCount_range (p : TSPoint) (st : State)
    (h1 : 1 ≤ st.stripCount) (h4 : st.stripCount ≤ 4) :
    st.stripCount ≤ (handleTouch p st).stripCount ∧ (handleTouch p st).stripCount ≤ 4 := by
  rw [handleTouch_stripCount]
  split
  · rw [stripCount_step st.stripCount h1 h4]
    omega
  · omega

/-- C20: from a strip count in `[1, 4]` a touch sample never lowers the strip count; a
valid tap on the strip-count screen with four strips leaves four; and after any sequence
of touch samples the strip count is at least what it was, and still at most 4. -/
theorem stripCount_monotone (p : TSPoint) (ps : List TSPoint) (st : State)
    (h1 : 1 ≤ st.stripCount) (h4 : st.stripCount ≤ 4) :
    st.stripCount ≤ (handleTouch p st).stripCount
    ∧ (validTouch p = true → st.currentScreen = ScreenID.LED_CONFIG_STRIPS →
        st.stripCount = 4 → (handleTouch p st).stripCount = 4)
    ∧ st.stripCount ≤ (touches ps st).stripCount
    ∧ (touches ps st).stripCount ≤ 4 := by
  refine ⟨(handleTouch_stripCount_range p st h1 h4).1, ?_, ?_⟩
  · intro hv hs h
    rw [handleTouch_stripCount, if_pos ⟨hv, hs⟩, stripCount_step st.stripCount h1 h4, h]
    rfl
  · have hall : ∀ (l : List TSPoint) (s : State), 1 ≤ s.stripCount → s.stripCount ≤ 4 →
        s.stripCount ≤ (touches l s).stripCount ∧ (touches l s).stripCount ≤ 4 := by
      intro l
      induction l with
      | nil => exact fun s _ hb => ⟨le_refl _, hb⟩
      | cons q l ih =>
        intro s ha hb
        have hq := handleTouch_stripCount_range q s ha hb
        have := ih (handleTouch q s) (by omega) hq.2
        have e : touches (q :: l) s = touches l (handleTouch q s) := rfl
        rw [e]
        exact ⟨by omega, this.2⟩
    exact hall ps st h1 h4

/-- C20 with four strips on the strip-count screen: the tap leaves four, and so does a
whole configuration flow. -/
theorem stripCount_monotone_witness :
    fourStripState.stripCount ≤ (handleTouch tapRow60 fourStripState).stripCount
    ∧ (validTouch tapRow60 = true → fourStripState.currentScreen = ScreenID.LED_CONFIG_STRIPS →
        fourStripState.stripCount = 4 → (handleTouch tapRow60 fourStripState).stripCount = 4)
    ∧ fourStripState.stripCount
        ≤ (touches [tapRow60, tapRow110, tapRow150, tapRow160, tapRow60]
            fourStripState).stripCount
    ∧ (touches [tapRow60, tapRow110, tapRow150, tapRow160, tapRow60]
        fourStripState).stripCount ≤ 4 :=
  stripCount_monotone tapRow60 [tapRow60, tapRow110, tapRow150, tapRow160, tapRow60]
    fourStripState (by decide) (by decide)

/-! ## Boot: the writes of `loadConfig` against the extent of `ledsPerStrip` -/

/-- With a strip count of at most `MAX_STRIPS` every write of the loop of `loadConfig`
stays inside `ledsPerStrip`, and the loop leaves what the unchecked form computes. -/
theorem loadLedsChecked_of_le (p : Prefs) (n : Nat) (a : Nat → Nat) (hn : n ≤ MAX_STRIPS) :
    loadLedsChecked p n a
      = some (forUpTo n (fun i a => setAt a i (getUInt (ledsKey i) 30 p % 2 ^ 16)) a) := by
  induction n with
  | zero => rfl
  | succ n ih =>
    have hlt : n < MAX_STRIPS := hn
    have h := ih (Nat.le_of_lt hlt)
    unfold loadLedsChecked at h ⊢
    simp only [forUpTo]
    rw [h]
    simp only [Option.bind, storeLedCount, if_pos hlt]

/-- With a strip count above `MAX_STRIPS` the loop of `loadConfig` writes outside
`ledsPerStrip`. -/
theorem loadLedsChecked_of_gt (p : Prefs) (n : Nat) (a : Nat → Nat) (hn : MAX_STRIPS < n) :
    loadLedsChecked p n a = none := by
  induction n with
  | zero => exact absurd hn (Nat.not_lt_zero _)
  | succ n ih =>
    have hge : ¬ n < MAX_STRIPS := by omega
    unfold loadLedsChecked
    simp only [forUpTo]
    cases forUpTo n (fun i (r : Option (Nat → Nat)) =>
        r.bind (fun a => storeLedCount a i (getUInt (ledsKey i) 30 p % 2 ^ 16))) (some a) with
    | none => rfl
    | some c => simp only [Option.bind, storeLedCount, if_neg hge]

/-- The bounds-checked `loadConfig` returns the state of the unchecked form exactly when
the stored strip count (as a `uint8_t`) is at most `MAX_STRIPS`. -/
theorem loadConfigChecked_eq (st : State) :
    loadConfigChecked st
      = if getUInt "stripCount" 1 st.prefs % 2 ^ 8 ≤ MAX_STRIPS then some (loadConfig st)
        else none := by
  unfold loadConfigChecked
  simp only
  split
  · rename_i h
    rw [loadLedsChecked_of_le _ _ _ h]
    rfl
  · rename_i h
    rw [loadLedsChecked_of_gt _ _ _ (not_le.mp h)]
    rfl

/-- The bounds-checked `setup` returns the state of the unchecked form exactly when the
stored strip count (as a `uint8_t`) is at most `MAX_STRIPS`. -/
theorem setupChecked_eq (store : Prefs) (now : Nat) :
    setupChecked store now
      = if getUInt "stripCount" 1 store % 2 ^ 8 ≤ MAX_STRIPS then some (setup store now)
        else none := by
  unfold setupChecked
  rw [loadConfigChecked_eq]
  have hp : (initState store).prefs = store := rfl
  rw [hp]
  split <;> rfl

/-- Touch handling keeps the strip count at or below `MAX_STRIPS`. -/
theorem handleTouch_stripCount_le (p : TSPoint) (st : State) (h : st.stripCount ≤ MAX_STRIPS) :
    (handleTouch p st).stripCount ≤ MAX_STRIPS := by
  rw [handleTouch_stripCount]
  split
  · exact stripCount_step_le st.stripCount
  · exact h

/-- Every sequence of events keeps the strip count at or below `MAX_STRIPS`. -/
theorem run_stripCount_le (level : (Nat → Int) → Int → Int) (rnd : Nat → Nat)
    (es : List Event) :
    ∀ st : State, st.stripCount ≤ MAX_STRIPS → (run level rnd st es).stripCount ≤ MAX_STRIPS := by
  induction es with
  | nil => exact fun _ h => h
  | cons e es ih =>
    intro st h
    apply ih
    cases e with
    | tick t =>
      have h1 : (loop level rnd t st).stripCount
          = (handleTouch t.touch (splashStep t.now st)).stripCount :=
        congrArg UiConfig.stripCount (render_uiConfig level rnd _ _ _)
      show (loop level rnd t st).stripCount ≤ MAX_STRIPS
      rw [h1]
      apply handleTouch_stripCount_le
      unfold splashStep
      split <;> exact h
    | touch p => exact handleTouch_stripCount_le p st h
    | render x y =>
      have h1 : (render level rnd x y st).stripCount = st.stripCount :=
        congrArg UiConfig.stripCount (render_uiConfig level rnd x y st)
      show (render level rnd x y st).stripCount ≤ MAX_STRIPS
      rw [h1]
      exact h
    | audio data len => exact h

/-- After a boot in which `loadConfig` stays inside `ledsPerStrip` (a stored strip count
of at most 4), every reachable state has a strip count of at most `MAX_STRIPS`, and on
the per-strip screen the strip count lies in `[1, 4]` and the flow index is below it,
hence inside the four entries of `ledsPerStrip`. -/
theorem flow_index_safe_checked (level : (Nat → Int) → Int → Int) (rnd : Nat → Nat)
    (store : Prefs) (now : Nat) (st0 : State) (es : List Event)
    (hboot : setupChecked store now = some st0) :
    (run level rnd st0 es).stripCount ≤ MAX_STRIPS
    ∧ ((run level rnd st0 es).currentScreen = ScreenID.LED_CONFIG_COUNT →
        1 ≤ (run level rnd st0 es).stripCount
        ∧ (run level rnd st0 es).currentStripIndex < (run level rnd st0 es).stripCount
        ∧ (run level rnd st0 es).currentStripIndex < MAX_STRIPS) := by
  rw [setupChecked_eq] at hboot
  by_cases hn : getUInt "stripCount" 1 store % 2 ^ 8 ≤ MAX_STRIPS
  · rw [if_pos hn] at hboot
    have e : st0 = setup store now := (Option.some.inj hboot).symm
    have hsc : st0.stripCount ≤ MAX_STRIPS := by
      rw [e]
      exact hn
    have hflow : FlowIndexOk st0 := by
      rw [e]
      intro hc
      change ScreenID.SPLASH = ScreenID.LED_CONFIG_COUNT at hc
      cases hc
    refine ⟨run_stripCount_le level rnd es st0 hsc, ?_⟩
    intro hs
    obtain ⟨h1, h4, hi⟩ := run_flowIndexOk level rnd es st0 hflow hs
    exact ⟨h1, hi, lt_of_lt_of_le hi h4⟩
  · rw [if_neg hn] at hboot
    cases hboot

/-- On a first boot (empty store) the per-strip screen is reached with two strips and the
flow index 0, every write of `loadConfig` having stayed inside `ledsPerStrip`. -/
theorem flow_index_first_boot :
    setupChecked emptyPrefs 0 = some (setup emptyPrefs 0)
    ∧ (run (fun _ _ => 0) (fun _ => 7) (setup emptyPrefs 0) toCountScreen).currentScreen
        = ScreenID.LED_CONFIG_COUNT
    ∧ (run (fun _ _ => 0) (fun _ => 7) (setup emptyPrefs 0) toCountScreen).stripCount = 2
    ∧ (run (fun _ _ => 0) (fun _ => 7) (setup emptyPrefs 0) toCountScreen).currentStripIndex = 0 := by
  refine ⟨?_, rfl, rfl, rfl⟩
  rw [setupChecked_eq]
  rfl

end Esp32Rgb
